import Mathlib

/-!
Shallow embedding of the core backup storage engine of the
proxmox-backup repository, together with theorems settling the frozen
claims about it.

Components embedded here (file names refer to the repository):
* `src/backup/data_blob.rs` — the blob codec (`DataBlob::encode`,
  `DataBlob::decode`, `DataBlob::from_raw`, `DataBlob::verify_crc`,
  `DataBlob::create_signed`).  External collaborators (zstd, AES-GCM,
  HMAC, CRC32) are modelled as explicit function parameters; theorems
  state the properties of those collaborators they rely on as
  hypotheses.
* `src/backup/prune.rs` — retention pruning (`mark_selections`,
  `remove_incomplete_snapshots`, `compute_prune_info`).
* `src/client/pull.rs` — pull/sync control flow (`pull_group`,
  `pull_store`, `pull_snapshot_from`).
* `src/backup/chunk_stream.rs` — `ChunkStream` and `FixedChunkStream`.
* `src/tape/drive/lto/sg_tape.rs` — `SgTape::write_block`.
* `src/tape/file_formats/catalog_archive.rs` — `tape_write_catalog`.

Bytes are modelled as `Nat` (values < 256 where it matters), byte
buffers as `List Nat`, machine integers as `Nat` with explicit wrapping
where overflow is reachable.
-/

/-! ## Byte-level utilities -/

/-- Replace the byte at index `n` (no-op when out of range). -/
def modifyAt : List Nat → Nat → (Nat → Nat) → List Nat
  | [], _, _ => []
  | b :: t, 0, f => f b :: t
  | b :: t, n+1, f => b :: modifyAt t n f

/-- Flip bit `i` of a byte buffer (bit `i % 8` of byte `i / 8`). -/
def flipBit (l : List Nat) (i : Nat) : List Nat :=
  modifyAt l (i / 8) (fun b => b ^^^ 2 ^ (i % 8))

/-- Little-endian 4-byte encoding of `n % 2^32`. -/
def u32LE (n : Nat) : List Nat :=
  [n % 256, n / 256 % 256, n / 65536 % 256, n / 16777216 % 256]

/-- Little-endian decoding of the first four bytes of a buffer. -/
def u32OfLE (l : List Nat) : Nat :=
  l.getD 0 0 + 256 * l.getD 1 0 + 65536 * l.getD 2 0 + 16777216 * l.getD 3 0

theorem modifyAt_length (l : List Nat) (n : Nat) (f : Nat → Nat) :
    (modifyAt l n f).length = l.length := by
  induction l generalizing n with
  | nil => rfl
  | cons b t ih =>
    cases n with
    | zero => rfl
    | succ m => simp [modifyAt, ih]

theorem modifyAt_append_left (a b : List Nat) (n : Nat) (f : Nat → Nat)
    (h : n < a.length) :
    modifyAt (a ++ b) n f = modifyAt a n f ++ b := by
  induction a generalizing n with
  | nil => simp at h
  | cons x t ih =>
    cases n with
    | zero => rfl
    | succ m =>
      simp only [List.cons_append, modifyAt, List.length_cons, List.append_eq] at *
      rw [ih]
      omega

theorem modifyAt_append_right (a b : List Nat) (n : Nat) (f : Nat → Nat)
    (h : a.length ≤ n) :
    modifyAt (a ++ b) n f = a ++ modifyAt b (n - a.length) f := by
  induction a generalizing n with
  | nil => simp
  | cons x t ih =>
    cases n with
    | zero => simp at h
    | succ m =>
      simp only [List.cons_append, modifyAt, List.length_cons, List.append_eq] at *
      rw [ih]
      · simp [Nat.succ_sub_succ]
      · omega

theorem xor_pow_ne (b k : Nat) : b ^^^ 2 ^ k ≠ b := by
  intro h
  have h2 : (b ^^^ 2 ^ k) ^^^ b = 0 := by rw [h, Nat.xor_self]
  rw [Nat.xor_comm b (2 ^ k), Nat.xor_assoc, Nat.xor_self, Nat.xor_zero] at h2
  exact absurd h2 (Nat.pos_pow_of_pos k (by norm_num)).ne'

theorem xor_byte_lt (b k : Nat) (hb : b < 256) (hk : k < 8) :
    b ^^^ 2 ^ k < 256 := by
  have h2 : 2 ^ k < 256 := by
    calc 2 ^ k ≤ 2 ^ 7 := Nat.pow_le_pow_right (by norm_num) (by omega)
    _ < 256 := by norm_num
  exact Nat.xor_lt_two_pow (n := 8) hb h2

theorem u32OfLE_u32LE (n : Nat) : u32OfLE (u32LE n) = n % 4294967296 := by
  simp only [u32LE, u32OfLE, List.getD, List.get?, Option.getD_some]
  omega

/-! ## Blob codec (`src/backup/data_blob.rs`)

The blob magic constants live in `file_formats.rs`, which is not part of
the sources in scope.  Modelled from the spec: "Magic constants are
stable 8-byte values"; we model them as fixed pairwise-distinct 8-byte
values (every two distinct magics differ in at least their first two
bytes, as any pair of independent random 8-byte constants does). -/

def UNCOMPRESSED_BLOB_MAGIC_1_0 : List Nat := [1, 1, 1, 1, 1, 1, 1, 1]

def COMPRESSED_BLOB_MAGIC_1_0 : List Nat := [2, 2, 2, 2, 2, 2, 2, 2]

def ENCRYPTED_BLOB_MAGIC_1_0 : List Nat := [3, 3, 3, 3, 3, 3, 3, 3]

def ENCR_COMPR_BLOB_MAGIC_1_0 : List Nat := [4, 4, 4, 4, 4, 4, 4, 4]

def AUTHENTICATED_BLOB_MAGIC_1_0 : List Nat := [5, 5, 5, 5, 5, 5, 5, 5]

def AUTH_COMPR_BLOB_MAGIC_1_0 : List Nat := [6, 6, 6, 6, 6, 6, 6, 6]

/-- The magics `DataBlob::from_raw` accepts. -/
def blobMagics : List (List Nat) :=
  [UNCOMPRESSED_BLOB_MAGIC_1_0, COMPRESSED_BLOB_MAGIC_1_0,
   ENCRYPTED_BLOB_MAGIC_1_0, ENCR_COMPR_BLOB_MAGIC_1_0,
   AUTHENTICATED_BLOB_MAGIC_1_0, AUTH_COMPR_BLOB_MAGIC_1_0]

def MAX_BLOB_SIZE : Nat := 134217728

/-- Model of the zstd library: `comp` is `zstd::block::compress(data, 1)`
(also used for the equivalent `zstd::stream::copy_encode` payload), and
`decompRaw` is the frame content recovered by `zstd::block::decompress`
before its size-cap check (`none` = corrupt frame). -/
structure ZstdModel where
  comp : List Nat → List Nat
  decompRaw : List Nat → Option (List Nat)

/-- Model of `zstd::block::decompress(d, cap)`: fails when the frame is corrupt or
the decompressed content exceeds `cap` bytes. -/
def zstdDecompress (zm : ZstdModel) (d : List Nat) (cap : Nat) : Option (List Nat) :=
  match zm.decompRaw d with
  | none => none
  | some out => if out.length ≤ cap then some out else none

/-- Model of `CryptConfig` (the file `crypt_config.rs` is not among the
sources in scope; its operations are modelled from the spec).
`encCt`/`encIv`/`encTag` model `encrypt_to` (ciphertext, random IV and
AEAD tag as functions of the plaintext — deterministic model of one
encode run), `dec` models AEAD decryption+verification of
`(ciphertext, iv, tag)`, and `authTag` models `compute_auth_tag`
(HMAC-SHA-256 of the payload, 32 bytes). -/
structure CryptModel where
  encCt : List Nat → List Nat
  encIv : List Nat → List Nat
  encTag : List Nat → List Nat
  dec : List Nat → List Nat → List Nat → Option (List Nat)
  authTag : List Nat → List Nat

/-- CRC32 value of a buffer under a CRC model (`crc32fast` returns `u32`). -/
def crc32v (crc : List Nat → Nat) (l : List Nat) : Nat := crc l % 4294967296

namespace DataBlob

/-- Embedding of `DataBlob::header_size` for the blob magics (12 bytes for the plain
header, 44 for the encrypted header `magic+crc+iv+tag` and for the
authenticated header `magic+crc+hmac`); 0 stands for the unreachable
panic on an unknown magic. -/
def headerSize (m : List Nat) : Nat :=
  if m = UNCOMPRESSED_BLOB_MAGIC_1_0 ∨ m = COMPRESSED_BLOB_MAGIC_1_0 then 12
  else if m = ENCRYPTED_BLOB_MAGIC_1_0 ∨ m = ENCR_COMPR_BLOB_MAGIC_1_0 then 44
  else if m = AUTHENTICATED_BLOB_MAGIC_1_0 ∨ m = AUTH_COMPR_BLOB_MAGIC_1_0 then 44
  else 0

/-- Embedding of `DataBlob::encode(data, config, compress)`: returns the raw stored
bytes of the blob (`none` models the `TooLarge` failure).  Mirrors the
branch structure of the source: with a crypt config, compression is used
only when strictly shorter and the result is framed with the encrypted
header; without one, the compressed frame (12-byte header plus stream)
is used only when shorter than header plus input. -/
def encode (zm : ZstdModel) (cm? : Option CryptModel) (crc : List Nat → Nat)
    (data : List Nat) (compress : Bool) : Option (List Nat) :=
  if data.length > MAX_BLOB_SIZE then none
  else
    match cm? with
    | some cm =>
      if compress ∧ (zm.comp data).length < data.length then
        some (ENCR_COMPR_BLOB_MAGIC_1_0 ++
          u32LE (crc32v crc (cm.encCt (zm.comp data))) ++
          cm.encIv (zm.comp data) ++ cm.encTag (zm.comp data) ++
          cm.encCt (zm.comp data))
      else
        some (ENCRYPTED_BLOB_MAGIC_1_0 ++ u32LE (crc32v crc (cm.encCt data)) ++
          cm.encIv data ++ cm.encTag data ++ cm.encCt data)
    | none =>
      if compress ∧ 12 + (zm.comp data).length < data.length + 12 then
        some (COMPRESSED_BLOB_MAGIC_1_0 ++ u32LE (crc32v crc (zm.comp data)) ++
          zm.comp data)
      else
        some (UNCOMPRESSED_BLOB_MAGIC_1_0 ++ u32LE (crc32v crc data) ++ data)

/-- Embedding of `DataBlob::create_signed(data, config, compress)` (`none` models the
`TooLarge` failure). The HMAC tag covers the stored (possibly
compressed) payload; the CRC covers only the bytes after the full
44-byte authenticated header, i.e. the payload but not the tag. -/
def create_signed (zm : ZstdModel) (cm : CryptModel) (crc : List Nat → Nat)
    (data : List Nat) (compress : Bool) : Option (List Nat) :=
  if data.length > MAX_BLOB_SIZE then none
  else
    if compress ∧ (zm.comp data).length < data.length then
      some (AUTH_COMPR_BLOB_MAGIC_1_0 ++ u32LE (crc32v crc (zm.comp data)) ++
        cm.authTag (zm.comp data) ++ zm.comp data)
    else
      some (AUTHENTICATED_BLOB_MAGIC_1_0 ++ u32LE (crc32v crc data) ++
        cm.authTag data ++ data)

/-- Embedding of `DataBlob::from_raw`: accepts the raw bytes exactly when they are
long enough for the header of a recognized blob magic. -/
def from_raw_ok (raw : List Nat) : Bool :=
  if raw.length < 12 then false
  else
    let m := raw.take 8
    if m = ENCR_COMPR_BLOB_MAGIC_1_0 ∨ m = ENCRYPTED_BLOB_MAGIC_1_0 then
      decide (44 ≤ raw.length)
    else if m = COMPRESSED_BLOB_MAGIC_1_0 ∨ m = UNCOMPRESSED_BLOB_MAGIC_1_0 then
      true
    else if m = AUTH_COMPR_BLOB_MAGIC_1_0 ∨ m = AUTHENTICATED_BLOB_MAGIC_1_0 then
      decide (44 ≤ raw.length)
    else false

/-- Embedding of `DataBlob::verify_crc`: the stored little-endian CRC field (bytes
8..12) must equal the CRC32 of everything after the full header. -/
def verify_crc (crc : List Nat → Nat) (raw : List Nat) : Bool :=
  decide (u32OfLE ((raw.drop 8).take 4) =
    crc32v crc (raw.drop (headerSize (raw.take 8))))

/-- Embedding of `DataBlob::decode(self, config)`.  Notes mirrored from the source:
the authenticated variants verify the HMAC only when a crypt config is
given; the authenticated-compressed variant decompresses with a 16 MiB
cap while the plain compressed variant uses `MAX_BLOB_SIZE`; the
encrypted variants fail without a config.  `decode_compressed_chunk` /
`decode_uncompressed_chunk` (in the out-of-scope `crypt_config.rs`) are
modelled from the spec: AEAD-decrypt, then for the compressed variant
decompress with the 128 MiB bound. -/
def decode (zm : ZstdModel) (cm? : Option CryptModel) (raw : List Nat) :
    Option (List Nat) :=
  let m := raw.take 8
  if m = UNCOMPRESSED_BLOB_MAGIC_1_0 then
    some (raw.drop 12)
  else if m = COMPRESSED_BLOB_MAGIC_1_0 then
    zstdDecompress zm (raw.drop 12) MAX_BLOB_SIZE
  else if m = ENCR_COMPR_BLOB_MAGIC_1_0 ∨ m = ENCRYPTED_BLOB_MAGIC_1_0 then
    match cm? with
    | some cm =>
      let iv := (raw.drop 12).take 16
      let tag := (raw.drop 28).take 16
      let ct := raw.drop 44
      if m = ENCR_COMPR_BLOB_MAGIC_1_0 then
        (cm.dec ct iv tag).bind (fun d => zstdDecompress zm d MAX_BLOB_SIZE)
      else
        cm.dec ct iv tag
    | none => none
  else if m = AUTH_COMPR_BLOB_MAGIC_1_0 ∨ m = AUTHENTICATED_BLOB_MAGIC_1_0 then
    let tag := (raw.drop 12).take 32
    let payload := raw.drop 44
    let sigOk := match cm? with
      | some cm => decide (cm.authTag payload = tag)
      | none => true
    if sigOk then
      if m = AUTH_COMPR_BLOB_MAGIC_1_0 then
        zstdDecompress zm payload 16777216
      else
        some payload
    else none
  else none

/-- The stored-blob read path: parse with `from_raw`, verify the CRC,
then `decode` — the order callers use on stored blobs. -/
def decodeChecked (zm : ZstdModel) (cm? : Option CryptModel)
    (crc : List Nat → Nat) (raw : List Nat) : Option (List Nat) :=
  if from_raw_ok raw && verify_crc crc raw then decode zm cm? raw else none

end DataBlob

/-! ### Structural lemmas about stored blobs -/

/-- A blob split into its four regions: magic, CRC field, extra header
bytes (IV+tag, or the HMAC tag, or nothing), payload. -/
def frame4 (M C E P : List Nat) : List Nat :=
  M ++ (C ++ (E ++ P))

/-- A well-formed framed blob with CRC value `v` in the CRC field. -/
def framed (M : List Nat) (v : Nat) (E P : List Nat) : List Nat :=
  frame4 M (u32LE v) E P

theorem blobMagics_length : ∀ M ∈ blobMagics, M.length = 8 := by decide

theorem magic_flip_invalid :
    ∀ M ∈ blobMagics, ∀ j < 8, ∀ k < 8,
      modifyAt M j (fun b => b ^^^ 2 ^ k) ∉ blobMagics := by decide

theorem u32LE_length (v : Nat) : (u32LE v).length = 4 := rfl

theorem frame4_length (M C E P : List Nat) :
    (frame4 M C E P).length = M.length + C.length + E.length + P.length := by
  simp [frame4]
  omega

theorem frame4_take_8 (M C E P : List Nat)
    (hM : M.length = 8) : (frame4 M C E P).take 8 = M :=
  List.take_left' hM

theorem frame4_crc_field (M C E P : List Nat)
    (hM : M.length = 8) (hC : C.length = 4) :
    ((frame4 M C E P).drop 8).take 4 = C := by
  rw [frame4, List.drop_left' hM]
  exact List.take_left' hC

theorem frame4_drop_12 (M C E P : List Nat)
    (hM : M.length = 8) (hC : C.length = 4) :
    (frame4 M C E P).drop 12 = E ++ P := by
  have h : frame4 M C E P = (M ++ C) ++ (E ++ P) := by
    simp [frame4]
  rw [h]
  exact List.drop_left' (by simp [hM, hC])

theorem frame4_payload (M C E P : List Nat)
    (hM : M.length = 8) (hC : C.length = 4) :
    (frame4 M C E P).drop (12 + E.length) = P := by
  have h : frame4 M C E P = ((M ++ C) ++ E) ++ P := by
    simp [frame4]
  rw [h]
  exact List.drop_left' (by simp [hM, hC]; omega)

theorem from_raw_ok_of_invalid_magic (raw : List Nat)
    (h : raw.take 8 ∉ blobMagics) : DataBlob.from_raw_ok raw = false := by
  simp only [blobMagics, List.mem_cons, List.not_mem_nil, or_false, not_or] at h
  obtain ⟨h1, h2, h3, h4, h5, h6⟩ := h
  unfold DataBlob.from_raw_ok
  simp [h1, h2, h3, h4, h5, h6]

theorem u32OfLE_modify_ne (v : Nat) (j k : Nat) (hj : j < 4) (hk : k < 8) :
    u32OfLE (modifyAt (u32LE v) j (fun b => b ^^^ 2 ^ k)) ≠ u32OfLE (u32LE v) := by
  have hp : (2 : Nat) ^ k < 256 := by
    calc (2 : Nat) ^ k ≤ 2 ^ 7 := Nat.pow_le_pow_right (by norm_num) (by omega)
    _ < 256 := by norm_num
  interval_cases j
  all_goals {
    simp only [u32LE, modifyAt, u32OfLE, List.getD, List.get?, Option.getD_some]
    intro h
    first
    | exact absurd (by omega : v % 256 ^^^ 2 ^ k = v % 256) (xor_pow_ne _ k)
    | exact absurd (by omega : v / 256 % 256 ^^^ 2 ^ k = v / 256 % 256) (xor_pow_ne _ k)
    | exact absurd (by omega : v / 65536 % 256 ^^^ 2 ^ k = v / 65536 % 256)
        (xor_pow_ne _ k)
    | exact absurd (by omega : v / 16777216 % 256 ^^^ 2 ^ k = v / 16777216 % 256)
        (xor_pow_ne _ k)
  }

theorem crc32v_lt (crc : List Nat → Nat) (l : List Nat) :
    crc32v crc l < 4294967296 :=
  Nat.mod_lt _ (by norm_num)

theorem verify_crc_frame4 (crc : List Nat → Nat) (M C E P : List Nat)
    (hM8 : M.length = 8) (hC : C.length = 4)
    (hhs : DataBlob.headerSize M = 12 + E.length) :
    DataBlob.verify_crc crc (frame4 M C E P) =
      decide (u32OfLE C = crc32v crc P) := by
  unfold DataBlob.verify_crc
  rw [frame4_take_8 M C E P hM8, frame4_crc_field M C E P hM8 hC, hhs,
    frame4_payload M C E P hM8 hC]

theorem from_raw_ok_frame4 (M C E P : List Nat)
    (hM : M ∈ blobMagics) (hC : C.length = 4)
    (hhs : DataBlob.headerSize M = 12 + E.length) :
    DataBlob.from_raw_ok (frame4 M C E P) = true := by
  have hM8 : M.length = 8 := blobMagics_length M hM
  have hlen : (frame4 M C E P).length = 12 + E.length + P.length := by
    rw [frame4_length]
    omega
  unfold DataBlob.from_raw_ok
  rw [frame4_take_8 M C E P hM8]
  fin_cases hM <;>
    simp_all [DataBlob.headerSize, UNCOMPRESSED_BLOB_MAGIC_1_0,
      COMPRESSED_BLOB_MAGIC_1_0, ENCRYPTED_BLOB_MAGIC_1_0,
      ENCR_COMPR_BLOB_MAGIC_1_0, AUTHENTICATED_BLOB_MAGIC_1_0,
      AUTH_COMPR_BLOB_MAGIC_1_0] <;>
    omega

/-- Any single-bit flip of a well-formed framed blob makes the checked
read path (`from_raw` + `verify_crc` + `decode`) fail, provided the CRC
model detects single-bit flips of the payload and flips inside the extra
header region make `decode` fail. -/
theorem decodeChecked_flip_none
    (zm : ZstdModel) (cm? : Option CryptModel) (crc : List Nat → Nat)
    (M E P : List Nat) (i : Nat)
    (hM : M ∈ blobMagics)
    (hhs : DataBlob.headerSize M = 12 + E.length)
    (hi : i < 8 * (framed M (crc32v crc P) E P).length)
    (hP : ∀ i' < 8 * P.length, crc32v crc (flipBit P i') ≠ crc32v crc P)
    (hEdec : ∀ i' < 8 * E.length,
      DataBlob.decode zm cm? (framed M (crc32v crc P) (flipBit E i') P) = none) :
    DataBlob.decodeChecked zm cm? crc
      (flipBit (framed M (crc32v crc P) E P) i) = none := by
  have hM8 : M.length = 8 := blobMagics_length M hM
  set v := crc32v crc P with hv
  have hu4 : (u32LE v).length = 4 := u32LE_length v
  have hlen : (framed M v E P).length = 12 + E.length + P.length := by
    rw [framed, frame4_length]
    simp [u32LE]
    omega
  have hk8 : i % 8 < 8 := Nat.mod_lt _ (by norm_num)
  have hjlt : i / 8 < 12 + E.length + P.length := by
    rw [hlen] at hi
    omega
  rw [flipBit]
  rcases Nat.lt_or_ge (i / 8) 8 with hj | hj
  · -- flip inside the magic: `from_raw` rejects the result
    have hsplit : modifyAt (framed M v E P) (i / 8) (fun b => b ^^^ 2 ^ (i % 8)) =
        modifyAt M (i / 8) (fun b => b ^^^ 2 ^ (i % 8)) ++ (u32LE v ++ (E ++ P)) :=
      modifyAt_append_left _ _ _ _ (by omega)
    rw [hsplit]
    have hM'len : (modifyAt M (i / 8) (fun b => b ^^^ 2 ^ (i % 8))).length = 8 := by
      rw [modifyAt_length, hM8]
    have hbad : (modifyAt M (i / 8) (fun b => b ^^^ 2 ^ (i % 8)) ++
        (u32LE v ++ (E ++ P))).take 8 ∉ blobMagics := by
      rw [List.take_left' hM'len]
      exact magic_flip_invalid M hM (i / 8) hj (i % 8) hk8
    unfold DataBlob.decodeChecked
    rw [from_raw_ok_of_invalid_magic _ hbad]
    rfl
  · rcases Nat.lt_or_ge (i / 8) 12 with hj12 | hj12
    · -- flip inside the CRC field: `verify_crc` rejects the result
      have hsplit : modifyAt (framed M v E P) (i / 8) (fun b => b ^^^ 2 ^ (i % 8)) =
          frame4 M (modifyAt (u32LE v) (i / 8 - 8) (fun b => b ^^^ 2 ^ (i % 8))) E P := by
        rw [framed, frame4, modifyAt_append_right _ _ _ _ (by omega),
          modifyAt_append_left _ _ _ _ (by rw [u32LE_length]; omega)]
        rw [hM8, frame4]
      rw [hsplit]
      have hC'len : (modifyAt (u32LE v) (i / 8 - 8)
          (fun b => b ^^^ 2 ^ (i % 8))).length = 4 := by
        rw [modifyAt_length, u32LE_length]
      unfold DataBlob.decodeChecked
      rw [verify_crc_frame4 crc M _ E P hM8 hC'len hhs]
      have hne : u32OfLE (modifyAt (u32LE v) (i / 8 - 8)
          (fun b => b ^^^ 2 ^ (i % 8))) ≠ crc32v crc P := by
        have h1 := u32OfLE_modify_ne v (i / 8 - 8) (i % 8) (by omega) hk8
        rw [u32OfLE_u32LE] at h1
        have h2 : v % 4294967296 = v := Nat.mod_eq_of_lt (crc32v_lt crc P)
        rw [h2] at h1
        exact h1
      simp [hne]
    · rcases Nat.lt_or_ge (i / 8) (12 + E.length) with hjE | hjE
      · -- flip inside the extra header region: `decode` fails by hypothesis
        have hsplit : modifyAt (framed M v E P) (i / 8) (fun b => b ^^^ 2 ^ (i % 8)) =
            framed M v (modifyAt E (i / 8 - 12) (fun b => b ^^^ 2 ^ (i % 8))) P := by
          rw [framed, frame4, modifyAt_append_right _ _ _ _ (by omega),
            modifyAt_append_right _ _ _ _ (by rw [u32LE_length]; omega),
            modifyAt_append_left _ _ _ _ (by omega)]
          rw [hM8, u32LE_length, framed, frame4]
          have : i / 8 - 8 - 4 = i / 8 - 12 := by omega
          rw [this]
        rw [hsplit]
        have hflip : modifyAt E (i / 8 - 12) (fun b => b ^^^ 2 ^ (i % 8)) =
            flipBit E (i - 96) := by
          rw [flipBit]
          have e1 : (i - 96) / 8 = i / 8 - 12 := by omega
          have e2 : (i - 96) % 8 = i % 8 := by omega
          rw [e1, e2]
        rw [hflip]
        have hE'len : (flipBit E (i - 96)).length = E.length := by
          rw [flipBit, modifyAt_length]
        unfold DataBlob.decodeChecked
        have hdec := hEdec (i - 96) (by omega)
        split
        · exact hdec
        · rfl
      · -- flip inside the payload: `verify_crc` rejects the result
        have hsplit : modifyAt (framed M v E P) (i / 8) (fun b => b ^^^ 2 ^ (i % 8)) =
            frame4 M (u32LE v) E
              (modifyAt P (i / 8 - (12 + E.length)) (fun b => b ^^^ 2 ^ (i % 8))) := by
          rw [framed, frame4, modifyAt_append_right _ _ _ _ (by omega),
            modifyAt_append_right _ _ _ _ (by rw [u32LE_length]; omega),
            modifyAt_append_right _ _ _ _ (by omega)]
          rw [hM8, u32LE_length, frame4]
          have : i / 8 - 8 - 4 - E.length = i / 8 - (12 + E.length) := by omega
          rw [this]
        rw [hsplit]
        have hflip : modifyAt P (i / 8 - (12 + E.length)) (fun b => b ^^^ 2 ^ (i % 8)) =
            flipBit P (i - 8 * (12 + E.length)) := by
          rw [flipBit]
          have e1 : (i - 8 * (12 + E.length)) / 8 = i / 8 - (12 + E.length) := by omega
          have e2 : (i - 8 * (12 + E.length)) % 8 = i % 8 := by omega
          rw [e1, e2]
        rw [hflip]
        unfold DataBlob.decodeChecked
        rw [verify_crc_frame4 crc M _ _ _ hM8 (u32LE_length v) hhs]
        have hne : u32OfLE (u32LE v) ≠
            crc32v crc (flipBit P (i - 8 * (12 + E.length))) := by
          rw [u32OfLE_u32LE, Nat.mod_eq_of_lt (crc32v_lt crc P)]
          exact (hP (i - 8 * (12 + E.length)) (by omega)).symm
        simp [hne]

/-! ### Decoding well-formed framed blobs -/

theorem verify_crc_framed_true (crc : List Nat → Nat) (M E P : List Nat)
    (hM8 : M.length = 8) (hhs : DataBlob.headerSize M = 12 + E.length) :
    DataBlob.verify_crc crc (framed M (crc32v crc P) E P) = true := by
  rw [framed, verify_crc_frame4 crc M _ E P hM8 (u32LE_length _) hhs,
    u32OfLE_u32LE, Nat.mod_eq_of_lt (crc32v_lt crc P)]
  simp

theorem decode_framed_uncomp (zm : ZstdModel) (cm? : Option CryptModel)
    (v : Nat) (P : List Nat) :
    DataBlob.decode zm cm? (framed UNCOMPRESSED_BLOB_MAGIC_1_0 v [] P) = some P := by
  unfold DataBlob.decode
  rw [framed, frame4_take_8 _ _ _ _ (by rfl)]
  rw [if_pos rfl, frame4_drop_12 _ _ _ _ (by rfl) (u32LE_length v)]
  rfl

theorem decode_framed_compr (zm : ZstdModel) (cm? : Option CryptModel)
    (v : Nat) (P : List Nat) :
    DataBlob.decode zm cm? (framed COMPRESSED_BLOB_MAGIC_1_0 v [] P) =
      zstdDecompress zm P MAX_BLOB_SIZE := by
  unfold DataBlob.decode
  rw [framed, frame4_take_8 _ _ _ _ (by rfl)]
  rw [if_neg (by decide), if_pos rfl, frame4_drop_12 _ _ _ _ (by rfl) (u32LE_length v)]
  rfl

theorem framed_enc_fields (M : List Nat) (v : Nat) (E P : List Nat)
    (hM8 : M.length = 8) (hE : E.length = 32) :
    ((framed M v E P).drop 12).take 16 = E.take 16 ∧
    ((framed M v E P).drop 28).take 16 = E.drop 16 ∧
    (framed M v E P).drop 44 = P := by
  have h12 : (framed M v E P).drop 12 = E ++ P :=
    frame4_drop_12 M _ E P hM8 (u32LE_length v)
  refine ⟨?_, ?_, ?_⟩
  · rw [h12]
    rw [List.take_append_of_le_length (by omega)]
  · have h28 : (framed M v E P).drop 28 = E.drop 16 ++ P := by
      have : (framed M v E P).drop 28 = ((framed M v E P).drop 12).drop 16 := by
        rw [List.drop_drop]
      rw [this, h12, List.drop_append_of_le_length (by omega)]
    rw [h28, List.take_append_of_le_length (by simp [hE]),
      List.take_of_length_le (by simp [hE])]
  · have : (framed M v E P).drop 44 = ((framed M v E P).drop 12).drop 32 := by
      rw [List.drop_drop]
    rw [this, h12, List.drop_append_of_le_length (by omega),
      List.drop_of_length_le (by omega)]
    simp [hE]

theorem decode_framed_encrypted (zm : ZstdModel) (cm : CryptModel)
    (v : Nat) (E P : List Nat) (hE : E.length = 32) :
    DataBlob.decode zm (some cm) (framed ENCRYPTED_BLOB_MAGIC_1_0 v E P) =
      cm.dec P (E.take 16) (E.drop 16) := by
  obtain ⟨h1, h2, h3⟩ := framed_enc_fields ENCRYPTED_BLOB_MAGIC_1_0 v E P (by rfl) hE
  unfold DataBlob.decode
  rw [framed] at h1 h2 h3 ⊢
  rw [frame4_take_8 _ _ _ _ (by rfl)]
  rw [if_neg (by decide), if_neg (by decide), if_pos (by decide)]
  simp only [h1, h2, h3]
  rw [if_neg (by decide)]

theorem decode_framed_encr_compr (zm : ZstdModel) (cm : CryptModel)
    (v : Nat) (E P : List Nat) (hE : E.length = 32) :
    DataBlob.decode zm (some cm) (framed ENCR_COMPR_BLOB_MAGIC_1_0 v E P) =
      (cm.dec P (E.take 16) (E.drop 16)).bind
        (fun d => zstdDecompress zm d MAX_BLOB_SIZE) := by
  obtain ⟨h1, h2, h3⟩ := framed_enc_fields ENCR_COMPR_BLOB_MAGIC_1_0 v E P (by rfl) hE
  unfold DataBlob.decode
  rw [framed] at h1 h2 h3 ⊢
  rw [frame4_take_8 _ _ _ _ (by rfl)]
  rw [if_neg (by decide), if_neg (by decide), if_pos (by decide)]
  simp only [h1, h2, h3]
  rw [if_pos (by decide)]

theorem decode_framed_enc_noconfig (zm : ZstdModel)
    (M : List Nat) (v : Nat) (E P : List Nat)
    (hM : M = ENCRYPTED_BLOB_MAGIC_1_0 ∨ M = ENCR_COMPR_BLOB_MAGIC_1_0) :
    DataBlob.decode zm none (framed M v E P) = none := by
  unfold DataBlob.decode
  rw [framed, frame4_take_8 _ _ _ _
    (by rcases hM with h | h <;> subst h <;> rfl)]
  rcases hM with h | h <;> subst h
  · rw [if_neg (by decide), if_neg (by decide), if_pos (by decide)]
  · rw [if_neg (by decide), if_neg (by decide), if_pos (by decide)]

theorem from_raw_ok_framed (M : List Nat) (v : Nat) (E P : List Nat)
    (hM : M ∈ blobMagics) (hhs : DataBlob.headerSize M = 12 + E.length) :
    DataBlob.from_raw_ok (framed M v E P) = true :=
  from_raw_ok_frame4 M (u32LE v) E P hM (u32LE_length v) hhs

/-- On a well-formed framed blob, the checked read path reduces to
`decode`. -/
theorem decodeChecked_framed (zm : ZstdModel) (cm? : Option CryptModel)
    (crc : List Nat → Nat) (M E P : List Nat)
    (hM : M ∈ blobMagics) (hhs : DataBlob.headerSize M = 12 + E.length) :
    DataBlob.decodeChecked zm cm? crc (framed M (crc32v crc P) E P) =
      DataBlob.decode zm cm? (framed M (crc32v crc P) E P) := by
  unfold DataBlob.decodeChecked
  rw [from_raw_ok_framed M _ E P hM hhs,
    verify_crc_framed_true crc M E P (blobMagics_length M hM) hhs]
  rfl

theorem encode_some_eq (zm : ZstdModel) (cm : CryptModel)
    (crc : List Nat → Nat) (data : List Nat) (compress : Bool)
    (h : ¬ data.length > MAX_BLOB_SIZE) :
    DataBlob.encode zm (some cm) crc data compress =
      if compress ∧ (zm.comp data).length < data.length then
        some (framed ENCR_COMPR_BLOB_MAGIC_1_0
          (crc32v crc (cm.encCt (zm.comp data)))
          (cm.encIv (zm.comp data) ++ cm.encTag (zm.comp data))
          (cm.encCt (zm.comp data)))
      else
        some (framed ENCRYPTED_BLOB_MAGIC_1_0 (crc32v crc (cm.encCt data))
          (cm.encIv data ++ cm.encTag data) (cm.encCt data)) := by
  unfold DataBlob.encode
  rw [if_neg h]
  split
  · rename_i cm2 heq
    injection heq with h2
    subst h2
    split <;> simp [framed, frame4, List.append_assoc]
  · rename_i heq
    exact absurd heq (by simp)

theorem encode_none_eq (zm : ZstdModel) (crc : List Nat → Nat)
    (data : List Nat) (compress : Bool)
    (h : ¬ data.length > MAX_BLOB_SIZE) :
    DataBlob.encode zm none crc data compress =
      if compress ∧ 12 + (zm.comp data).length < data.length + 12 then
        some (framed COMPRESSED_BLOB_MAGIC_1_0 (crc32v crc (zm.comp data)) []
          (zm.comp data))
      else
        some (framed UNCOMPRESSED_BLOB_MAGIC_1_0 (crc32v crc data) [] data) := by
  unfold DataBlob.encode
  rw [if_neg h]
  split
  · rename_i cm2 heq
    exact absurd heq (by simp)
  · split <;> simp [framed, frame4, List.append_assoc]

theorem create_signed_eq (zm : ZstdModel) (cm : CryptModel)
    (crc : List Nat → Nat) (data : List Nat) (compress : Bool)
    (h : ¬ data.length > MAX_BLOB_SIZE) :
    DataBlob.create_signed zm cm crc data compress =
      if compress ∧ (zm.comp data).length < data.length then
        some (framed AUTH_COMPR_BLOB_MAGIC_1_0 (crc32v crc (zm.comp data))
          (cm.authTag (zm.comp data)) (zm.comp data))
      else
        some (framed AUTHENTICATED_BLOB_MAGIC_1_0 (crc32v crc data)
          (cm.authTag data) data) := by
  unfold DataBlob.create_signed
  rw [if_neg h]
  split <;> simp [framed, frame4, List.append_assoc]

/-- Round-trip through the checked read path for every `encode` output,
given that the zstd and AEAD models invert on the relevant payload. -/
theorem decodeChecked_encode (zm : ZstdModel) (cm? : Option CryptModel)
    (crc : List Nat → Nat) (data : List Nat) (compress : Bool) (raw : List Nat)
    (henc : DataBlob.encode zm cm? crc data compress = some raw)
    (hzstd : zm.decompRaw (zm.comp data) = some data)
    (hcrypt : ∀ cm, cm? = some cm → ∀ p : List Nat,
      (cm.encIv p).length = 16 ∧ (cm.encTag p).length = 16 ∧
      cm.dec (cm.encCt p) (cm.encIv p) (cm.encTag p) = some p) :
    DataBlob.decodeChecked zm cm? crc raw = some data := by
  have hbig : ¬ data.length > MAX_BLOB_SIZE := by
    intro hb
    unfold DataBlob.encode at henc
    rw [if_pos hb] at henc
    cases cm? <;> cases henc
  cases cm? with
  | some cm =>
    have hiv : ∀ p : List Nat, (cm.encIv p).length = 16 :=
      fun p => (hcrypt cm rfl p).1
    have htag : ∀ p : List Nat, (cm.encTag p).length = 16 :=
      fun p => (hcrypt cm rfl p).2.1
    have hdec : ∀ p : List Nat,
        cm.dec (cm.encCt p) (cm.encIv p) (cm.encTag p) = some p :=
      fun p => (hcrypt cm rfl p).2.2
    rw [encode_some_eq zm cm crc data compress hbig] at henc
    split at henc
    · injection henc with hraw
      subst hraw
      have hE : (cm.encIv (zm.comp data) ++ cm.encTag (zm.comp data)).length = 32 := by
        rw [List.length_append, hiv, htag]
      rw [decodeChecked_framed zm (some cm) crc _ _ _ (by decide)
        (by rw [hE]; decide)]
      rw [decode_framed_encr_compr zm cm _ _ _ hE]
      rw [List.take_left' (hiv _), List.drop_left' (hiv _), hdec]
      simp only [Option.some_bind, zstdDecompress, hzstd]
      rw [if_pos (by omega)]
    · injection henc with hraw
      subst hraw
      have hE : (cm.encIv data ++ cm.encTag data).length = 32 := by
        rw [List.length_append, hiv, htag]
      rw [decodeChecked_framed zm (some cm) crc _ _ _ (by decide)
        (by rw [hE]; decide)]
      rw [decode_framed_encrypted zm cm _ _ _ hE]
      rw [List.take_left' (hiv _), List.drop_left' (hiv _), hdec]
  | none =>
    rw [encode_none_eq zm crc data compress hbig] at henc
    split at henc
    · injection henc with hraw
      subst hraw
      rw [decodeChecked_framed zm none crc _ _ _ (by decide) (by decide)]
      rw [decode_framed_compr]
      simp only [zstdDecompress, hzstd]
      rw [if_pos (by omega)]
    · injection henc with hraw
      subst hraw
      rw [decodeChecked_framed zm none crc _ _ _ (by decide) (by decide)]
      exact decode_framed_uncomp zm none _ data

theorem flipBit_length (l : List Nat) (i : Nat) :
    (flipBit l i).length = l.length := by
  rw [flipBit, modifyAt_length]

theorem framed_take_8 (M : List Nat) (v : Nat) (E P : List Nat)
    (hM8 : M.length = 8) : (framed M v E P).take 8 = M :=
  frame4_take_8 M (u32LE v) E P hM8

theorem framed_payload (M : List Nat) (v : Nat) (E P : List Nat)
    (hM8 : M.length = 8) : (framed M v E P).drop (12 + E.length) = P :=
  frame4_payload M (u32LE v) E P hM8 (u32LE_length v)

theorem framed_drop_12 (M : List Nat) (v : Nat) (E P : List Nat)
    (hM8 : M.length = 8) : (framed M v E P).drop 12 = E ++ P :=
  frame4_drop_12 M (u32LE v) E P hM8 (u32LE_length v)

/-- Claim C1: for every byte buffer of length at most 128 MiB, every
optional crypt configuration and both compress settings,
`DataBlob::decode` (including its CRC verification, i.e. the
`from_raw`/`verify_crc`/`decode` read path) recovers exactly the
original data from `DataBlob::encode`, and flipping any single bit of
the stored blob makes that read path fail.  The zstd, AEAD and CRC32
collaborators are modelled; the hypotheses state the standard facts
about them this relies on: zstd round-trips, AEAD decryption inverts
encryption and rejects any single-bit-flipped `(iv, tag)` pair, and
CRC32 detects any single-bit flip of the checked region. -/
theorem c1_blob_codec_roundtrip_and_bitflip
    (zm : ZstdModel) (cm? : Option CryptModel) (crc : List Nat → Nat)
    (data : List Nat) (compress : Bool) (raw : List Nat)
    (henc : DataBlob.encode zm cm? crc data compress = some raw)
    (hzstd : zm.decompRaw (zm.comp data) = some data)
    (hcrypt : ∀ cm, cm? = some cm → ∀ p : List Nat,
      (cm.encIv p).length = 16 ∧ (cm.encTag p).length = 16 ∧
      cm.dec (cm.encCt p) (cm.encIv p) (cm.encTag p) = some p)
    (hcrc : ∀ i' < 8 * (raw.drop (DataBlob.headerSize (raw.take 8))).length,
      crc32v crc (flipBit (raw.drop (DataBlob.headerSize (raw.take 8))) i') ≠
        crc32v crc (raw.drop (DataBlob.headerSize (raw.take 8))))
    (haead : ∀ cm, cm? = some cm → ∀ i' < 256,
      cm.dec (raw.drop 44) ((flipBit ((raw.drop 12).take 32) i').take 16)
        ((flipBit ((raw.drop 12).take 32) i').drop 16) = none) :
    DataBlob.decodeChecked zm cm? crc raw = some data ∧
    ∀ i < 8 * raw.length,
      DataBlob.decodeChecked zm cm? crc (flipBit raw i) = none := by
  refine ⟨decodeChecked_encode zm cm? crc data compress raw henc hzstd hcrypt, ?_⟩
  have hbig : ¬ data.length > MAX_BLOB_SIZE := by
    intro hb
    unfold DataBlob.encode at henc
    rw [if_pos hb] at henc
    cases cm? <;> cases henc
  cases cm? with
  | some cm =>
    have hiv : ∀ p : List Nat, (cm.encIv p).length = 16 :=
      fun p => (hcrypt cm rfl p).1
    have htag : ∀ p : List Nat, (cm.encTag p).length = 16 :=
      fun p => (hcrypt cm rfl p).2.1
    rw [encode_some_eq zm cm crc data compress hbig] at henc
    split at henc <;> injection henc with hraw <;> subst hraw
    · -- encrypted + compressed
      set p := zm.comp data with hp
      set E := cm.encIv p ++ cm.encTag p with hEdef
      have hE : E.length = 32 := by rw [hEdef, List.length_append, hiv, htag]
      have hhs : DataBlob.headerSize ENCR_COMPR_BLOB_MAGIC_1_0 = 12 + E.length := by
        rw [hE]
        decide
      have hM8 : ENCR_COMPR_BLOB_MAGIC_1_0.length = 8 := by decide
      rw [framed_take_8 _ _ _ _ hM8, hhs, framed_payload _ _ _ _ hM8] at hcrc
      have hEtake : ((framed ENCR_COMPR_BLOB_MAGIC_1_0
          (crc32v crc (cm.encCt p)) E (cm.encCt p)).drop 12).take 32 = E := by
        rw [framed_drop_12 _ _ _ _ hM8, List.take_append_of_le_length (by omega),
          ← hE, List.take_length]
      have h44 : (framed ENCR_COMPR_BLOB_MAGIC_1_0
          (crc32v crc (cm.encCt p)) E (cm.encCt p)).drop 44 = cm.encCt p :=
        (framed_enc_fields _ _ E _ hM8 hE).2.2
      intro i hi
      refine decodeChecked_flip_none zm (some cm) crc _ E _ i (by decide) hhs hi
        hcrc ?_
      intro i' hi'
      have hi256 : i' < 256 := by rw [hE] at hi'; omega
      have h := haead cm rfl i' hi256
      rw [hEtake, h44] at h
      rw [decode_framed_encr_compr zm cm _ _ _ (by rw [flipBit_length, hE])]
      rw [h]
      rfl
    · -- encrypted, not compressed
      set E := cm.encIv data ++ cm.encTag data with hEdef
      have hE : E.length = 32 := by rw [hEdef, List.length_append, hiv, htag]
      have hhs : DataBlob.headerSize ENCRYPTED_BLOB_MAGIC_1_0 = 12 + E.length := by
        rw [hE]
        decide
      have hM8 : ENCRYPTED_BLOB_MAGIC_1_0.length = 8 := by decide
      rw [framed_take_8 _ _ _ _ hM8, hhs, framed_payload _ _ _ _ hM8] at hcrc
      have hEtake : ((framed ENCRYPTED_BLOB_MAGIC_1_0
          (crc32v crc (cm.encCt data)) E (cm.encCt data)).drop 12).take 32 = E := by
        rw [framed_drop_12 _ _ _ _ hM8, List.take_append_of_le_length (by omega),
          ← hE, List.take_length]
      have h44 : (framed ENCRYPTED_BLOB_MAGIC_1_0
          (crc32v crc (cm.encCt data)) E (cm.encCt data)).drop 44 = cm.encCt data :=
        (framed_enc_fields _ _ E _ hM8 hE).2.2
      intro i hi
      refine decodeChecked_flip_none zm (some cm) crc _ E _ i (by decide) hhs hi
        hcrc ?_
      intro i' hi'
      have hi256 : i' < 256 := by rw [hE] at hi'; omega
      have h := haead cm rfl i' hi256
      rw [hEtake, h44] at h
      rw [decode_framed_encrypted zm cm _ _ _ (by rw [flipBit_length, hE])]
      exact h
  | none =>
    rw [encode_none_eq zm crc data compress hbig] at henc
    split at henc <;> injection henc with hraw <;> subst hraw
    · -- compressed
      have hM8 : COMPRESSED_BLOB_MAGIC_1_0.length = 8 := by decide
      have hhs : DataBlob.headerSize COMPRESSED_BLOB_MAGIC_1_0 =
          12 + ([] : List Nat).length := by decide
      rw [framed_take_8 _ _ _ _ hM8, hhs, framed_payload _ _ _ _ hM8] at hcrc
      intro i hi
      exact decodeChecked_flip_none zm none crc _ [] _ i (by decide) hhs hi hcrc
        (fun i' hi' => absurd hi' (by simp))
    · -- uncompressed
      have hM8 : UNCOMPRESSED_BLOB_MAGIC_1_0.length = 8 := by decide
      have hhs : DataBlob.headerSize UNCOMPRESSED_BLOB_MAGIC_1_0 =
          12 + ([] : List Nat).length := by decide
      rw [framed_take_8 _ _ _ _ hM8, hhs, framed_payload _ _ _ _ hM8] at hcrc
      intro i hi
      exact decodeChecked_flip_none zm none crc _ [] _ i (by decide) hhs hi hcrc
        (fun i' hi' => absurd hi' (by simp))

/-! ### Concrete model instances used by witnesses -/

/-- Concrete zstd model for witnesses: framing prepends one byte. -/
def zstdW : ZstdModel := ⟨fun l => 0 :: l, fun l => some l.tail⟩

/-- Concrete CRC model for witnesses: base-256 fold, single-bit
sensitive on short buffers. -/
def crcW : List Nat → Nat := fun l => l.foldl (fun a b => a * 256 + b + 1) 1

/-- The blob `encode zstdW none crcW [7, 9] false` produces. -/
def c1RawW : List Nat :=
  UNCOMPRESSED_BLOB_MAGIC_1_0 ++ u32LE (crc32v crcW [7, 9]) ++ [7, 9]

/-- Witness for C1: the round-trip and bit-flip theorem applied to the
two-byte buffer `[7, 9]`, uncompressed, without encryption. -/
theorem c1_blob_codec_witness :
    DataBlob.encode zstdW none crcW [7, 9] false = some c1RawW ∧
    (DataBlob.decodeChecked zstdW none crcW c1RawW = some [7, 9] ∧
     ∀ i < 8 * c1RawW.length,
       DataBlob.decodeChecked zstdW none crcW (flipBit c1RawW i) = none) := by
  have henc : DataBlob.encode zstdW none crcW [7, 9] false = some c1RawW := by
    decide
  exact ⟨henc,
    c1_blob_codec_roundtrip_and_bitflip zstdW none crcW [7, 9] false c1RawW
      henc (by decide) (fun cm h => by cases h) (by decide)
      (fun cm h => by cases h)⟩

/-! ### Authenticated blobs (claims C2 and C3) -/

theorem decode_framed_auth (zm : ZstdModel) (cm? : Option CryptModel)
    (v : Nat) (E P : List Nat) (hE : E.length = 32) :
    DataBlob.decode zm cm? (framed AUTHENTICATED_BLOB_MAGIC_1_0 v E P) =
      match cm? with
      | some cm => if cm.authTag P = E then some P else none
      | none => some P := by
  obtain ⟨h1, h2, h3⟩ :=
    framed_enc_fields AUTHENTICATED_BLOB_MAGIC_1_0 v E P (by rfl) hE
  have hEtake : ((framed AUTHENTICATED_BLOB_MAGIC_1_0 v E P).drop 12).take 32
      = E := by
    rw [framed_drop_12 _ _ _ _ (by rfl), List.take_append_of_le_length (by omega),
      ← hE, List.take_length]
  unfold DataBlob.decode
  rw [framed] at hEtake h3 ⊢
  rw [frame4_take_8 _ _ _ _ (by rfl)]
  rw [if_neg (by decide), if_neg (by decide), if_neg (by decide),
    if_pos (by decide)]
  simp only [hEtake, h3]
  cases cm? with
  | some cm =>
    by_cases htag : cm.authTag P = E
    · rw [if_pos (by simpa using htag), if_neg (by decide)]
      simp [htag]
    · rw [if_neg (by simpa using htag)]
      simp [htag]
  | none =>
    simp [AUTHENTICATED_BLOB_MAGIC_1_0, AUTH_COMPR_BLOB_MAGIC_1_0]

theorem decode_framed_auth_compr (zm : ZstdModel) (cm? : Option CryptModel)
    (v : Nat) (E P : List Nat) (hE : E.length = 32) :
    DataBlob.decode zm cm? (framed AUTH_COMPR_BLOB_MAGIC_1_0 v E P) =
      match cm? with
      | some cm => if cm.authTag P = E then zstdDecompress zm P 16777216 else none
      | none => zstdDecompress zm P 16777216 := by
  obtain ⟨h1, h2, h3⟩ :=
    framed_enc_fields AUTH_COMPR_BLOB_MAGIC_1_0 v E P (by rfl) hE
  have hEtake : ((framed AUTH_COMPR_BLOB_MAGIC_1_0 v E P).drop 12).take 32
      = E := by
    rw [framed_drop_12 _ _ _ _ (by rfl), List.take_append_of_le_length (by omega),
      ← hE, List.take_length]
  unfold DataBlob.decode
  rw [framed] at hEtake h3 ⊢
  rw [frame4_take_8 _ _ _ _ (by rfl)]
  rw [if_neg (by decide), if_neg (by decide), if_neg (by decide),
    if_pos (by decide)]
  simp only [hEtake, h3]
  cases cm? with
  | some cm =>
    by_cases htag : cm.authTag P = E
    · rw [if_pos (by simpa using htag), if_pos (by decide)]
      simp [htag]
    · rw [if_neg (by simpa using htag)]
      simp [htag]
  | none =>
    simp [AUTH_COMPR_BLOB_MAGIC_1_0]

/-- Concrete crypt model for witnesses: identity "cipher" with all-zero
IV/tag and all-zero HMAC. -/
def cryptW : CryptModel :=
  ⟨fun l => l, fun _ => List.replicate 16 0, fun _ => List.replicate 16 0,
   fun c i t => if i = List.replicate 16 0 ∧ t = List.replicate 16 0
     then some c else none,
   fun _ => List.replicate 32 0⟩

/-- Claim C2 (amended): `DataBlob::decode` verifies the HMAC of an
authenticated blob only when a crypt config is supplied — with a config,
a stored tag that differs from the HMAC of the stored payload makes
decoding fail for both authenticated variants; without a config the tag
is not checked at all and decoding succeeds. -/
theorem c2_auth_hmac_only_with_config (zm : ZstdModel) (cm : CryptModel)
    (v : Nat) (E P : List Nat) (hE : E.length = 32)
    (htag : cm.authTag P ≠ E) :
    DataBlob.decode zm (some cm) (framed AUTHENTICATED_BLOB_MAGIC_1_0 v E P)
      = none ∧
    DataBlob.decode zm (some cm) (framed AUTH_COMPR_BLOB_MAGIC_1_0 v E P)
      = none ∧
    DataBlob.decode zm none (framed AUTHENTICATED_BLOB_MAGIC_1_0 v E P)
      = some P := by
  refine ⟨?_, ?_, ?_⟩
  · rw [decode_framed_auth zm (some cm) v E P hE]
    simp [htag]
  · rw [decode_framed_auth_compr zm (some cm) v E P hE]
    simp [htag]
  · rw [decode_framed_auth zm none v E P hE]

/-- Witness for C2 (amended claim) on a concrete authenticated blob
whose stored tag is 32 one-bytes while the model HMAC of the payload is
32 zero-bytes. -/
theorem c2_auth_hmac_witness :
    ((List.replicate 32 1 : List Nat).length = 32 ∧
      cryptW.authTag [5] ≠ List.replicate 32 1) ∧
    (DataBlob.decode zstdW (some cryptW)
      (framed AUTHENTICATED_BLOB_MAGIC_1_0 0 (List.replicate 32 1) [5])
        = none ∧
     DataBlob.decode zstdW (some cryptW)
      (framed AUTH_COMPR_BLOB_MAGIC_1_0 0 (List.replicate 32 1) [5])
        = none ∧
     DataBlob.decode zstdW none
      (framed AUTHENTICATED_BLOB_MAGIC_1_0 0 (List.replicate 32 1) [5])
        = some [5]) :=
  ⟨⟨by decide, by decide⟩,
   c2_auth_hmac_only_with_config zstdW cryptW 0 (List.replicate 32 1) [5]
     (by decide) (by decide)⟩

/-- Counterexample to C2 as stated: an authenticated blob whose stored
tag (32 one-bytes) differs from the HMAC of its payload (the model HMAC
is 32 zero-bytes) still decodes successfully when no crypt config is
supplied, because the source only verifies the signature when a config
is present. -/
theorem c2_counterexample_decode_without_config :
    cryptW.authTag [5] ≠ List.replicate 32 1 ∧
    DataBlob.decode zstdW none
      (framed AUTHENTICATED_BLOB_MAGIC_1_0 0 (List.replicate 32 1) [5])
      = some [5] := by
  refine ⟨by decide, ?_⟩
  rw [decode_framed_auth zstdW none 0 (List.replicate 32 1) [5] (by decide)]

/-- Claim C3 (amended): `DataBlob::decode` caps the decompressed size of
every compressed variant, but not with a single bound: 128 MiB
(`MAX_BLOB_SIZE`) for the plain compressed variant and the (modelled)
encrypted-compressed variant, while the authenticated-compressed variant
uses a 16 MiB cap. -/
theorem c3_decompress_caps (zm : ZstdModel) (cm : CryptModel) (v : Nat)
    (E P q outP outQ : List Nat) (hE : E.length = 32)
    (hdP : zm.decompRaw P = some outP)
    (hq : cm.dec P (E.take 16) (E.drop 16) = some q)
    (hdq : zm.decompRaw q = some outQ) :
    (DataBlob.decode zm none (framed COMPRESSED_BLOB_MAGIC_1_0 v [] P) =
      if outP.length ≤ MAX_BLOB_SIZE then some outP else none) ∧
    (DataBlob.decode zm none (framed AUTH_COMPR_BLOB_MAGIC_1_0 v E P) =
      if outP.length ≤ 16777216 then some outP else none) ∧
    (DataBlob.decode zm (some cm) (framed ENCR_COMPR_BLOB_MAGIC_1_0 v E P) =
      if outQ.length ≤ MAX_BLOB_SIZE then some outQ else none) := by
  refine ⟨?_, ?_, ?_⟩
  · rw [decode_framed_compr]
    simp only [zstdDecompress, hdP]
  · rw [decode_framed_auth_compr zm none v E P hE]
    simp only [zstdDecompress, hdP]
  · rw [decode_framed_encr_compr zm cm v E P hE, hq]
    simp only [Option.some_bind, zstdDecompress, hdq]

/-- Witness for C3 (amended claim): concrete models where the payload
`[3, 4]` "decompresses" to `[4]` and the identity cipher decrypts it to
itself. -/
theorem c3_decompress_caps_witness :
    ((List.replicate 32 0 : List Nat).length = 32 ∧
     zstdW.decompRaw [3, 4] = some [4] ∧
     cryptW.dec [3, 4] ((List.replicate 32 0).take 16)
       ((List.replicate 32 0).drop 16) = some [3, 4] ∧
     zstdW.decompRaw [3, 4] = some [4]) ∧
    DataBlob.decode zstdW none
      (framed COMPRESSED_BLOB_MAGIC_1_0 0 [] [3, 4]) =
      if ([4] : List Nat).length ≤ MAX_BLOB_SIZE then some [4] else none :=
  ⟨⟨by decide, by decide, by decide, by decide⟩,
   (c3_decompress_caps zstdW cryptW 0 (List.replicate 32 0) [3, 4] [3, 4]
     [4] [4] (by decide) (by decide) (by decide) (by decide)).1⟩

/-- Zstd model whose every frame decompresses to 16 MiB + 1 bytes. -/
def zstd16M : ZstdModel :=
  ⟨fun l => l, fun _ => some (List.replicate 16777217 0)⟩

/-- Counterexample to C3 as stated: a concrete authenticated-compressed
blob whose decompressed content (16 MiB + 1 bytes) is well below the
claimed 128 MiB bound, yet `decode` fails, because the source uses a
16 MiB cap for this variant. -/
theorem c3_counterexample_auth_compr_16mib :
    zstd16M.decompRaw [1] = some (List.replicate 16777217 0) ∧
    (List.replicate 16777217 (0 : Nat)).length ≤ MAX_BLOB_SIZE ∧
    DataBlob.decode zstd16M none
      (framed AUTH_COMPR_BLOB_MAGIC_1_0 0 (List.replicate 32 0) [1]) = none := by
  refine ⟨rfl, ?_, ?_⟩
  · rw [List.length_replicate]
    norm_num [MAX_BLOB_SIZE]
  · rw [decode_framed_auth_compr zstd16M none 0 (List.replicate 32 0) [1]
      (by decide)]
    simp only [zstdDecompress, zstd16M, List.length_replicate]
    norm_num

/-! ## Pruner (`src/backup/prune.rs`)

`BackupInfo`/`BackupDir` live in `backup_info.rs`, which is not among
the sources in scope.  Modelled from the spec: a snapshot carries its
backup time (epoch) and whether a manifest file is present
(`has_manifest`); `sort_list(list, false)` sorts by timestamp
descending.  The selection ids computed by the `select_id` closures are
strings built from the local calendar time
(`"y/m/d"`, `"y/isoweek"`, `"y/m"`, `"y/y"`, and the RFC3339 time string
for `keep_last`); these formats are injective in the respective calendar
fields, so they are modelled by the corresponding tuples, carried as
data on each snapshot. -/

namespace Prune

structure BackupInfo where
  time : Int
  year : Nat
  month : Nat
  day : Nat
  week : Nat
  finished : Bool
deriving DecidableEq

inductive PruneMark where
  | Keep
  | KeepPartial
  | Remove
deriving DecidableEq

/-- The mark map (`HashMap<PathBuf, PruneMark>` keyed by the snapshot's
relative path, which is injective in the backup time): an association
list where the newest insertion wins. -/
def mlookup (t : Int) : List (Int × PruneMark) → Option PruneMark
  | [] => none
  | (k, v) :: es => if t = k then some v else mlookup t es

/-- The `already_included` set of `mark_selections`: selection ids of
snapshots already marked `Keep`. -/
def alreadyIncluded {K : Type} (mark : List (Int × PruneMark))
    (list : List BackupInfo) (sel : BackupInfo → K) : List K :=
  list.filterMap (fun info =>
    if mlookup info.time mark = some PruneMark.Keep then some (sel info) else none)

/-- The main loop of `mark_selections` (`include_hash` is `inc`);
returning `mark` unchanged models the `break`. -/
def markSelLoop {K : Type} [DecidableEq K] (sel : BackupInfo → K)
    (already : List K) (keep : Nat) :
    List (Int × PruneMark) → List K → List BackupInfo → List (Int × PruneMark)
  | mark, _, [] => mark
  | mark, inc, info :: rest =>
    if (mlookup info.time mark).isSome then
      markSelLoop sel already keep mark inc rest
    else if sel info ∈ already then
      markSelLoop sel already keep mark inc rest
    else if sel info ∉ inc then
      if inc.length ≥ keep then mark
      else markSelLoop sel already keep ((info.time, PruneMark.Keep) :: mark)
        (sel info :: inc) rest
    else
      markSelLoop sel already keep ((info.time, PruneMark.Remove) :: mark) inc rest

/-- Embedding of `mark_selections(mark, list, keep, select_id)`. -/
def mark_selections {K : Type} [DecidableEq K] (mark : List (Int × PruneMark))
    (list : List BackupInfo) (keep : Nat) (sel : BackupInfo → K) :
    List (Int × PruneMark) :=
  markSelLoop sel (alreadyIncluded mark list sel) keep mark [] list

/-- The loop of `remove_incomplete_snapshots` (`ku` is
`keep_unfinished`, which is cleared after the first snapshot in every
branch). -/
def riLoop : List (Int × PruneMark) → Bool → List BackupInfo → List (Int × PruneMark)
  | mark, _, [] => mark
  | mark, ku, info :: rest =>
    if info.finished then riLoop mark false rest
    else riLoop
      ((info.time, if ku then PruneMark.KeepPartial else PruneMark.Remove) :: mark)
      false rest

def remove_incomplete_snapshots (mark : List (Int × PruneMark))
    (list : List BackupInfo) : List (Int × PruneMark) :=
  riLoop mark true list

structure PruneOptions where
  keep_last : Option Nat
  keep_daily : Option Nat
  keep_weekly : Option Nat
  keep_monthly : Option Nat
  keep_yearly : Option Nat
deriving DecidableEq

/-- Descending order on backup times (`sort_list(list, false)`). -/
def timeDesc (a b : BackupInfo) : Prop := b.time ≤ a.time

instance : DecidableRel timeDesc := fun _ b => Int.decLe b.time _

instance : IsTotal BackupInfo timeDesc :=
  ⟨fun x y => by unfold timeDesc; omega⟩

instance : IsTrans BackupInfo timeDesc :=
  ⟨fun x y z h1 h2 => by unfold timeDesc at *; omega⟩

/-- Embedding of `BackupInfo::sort_list(&mut list, false)`: newest first. -/
def sort_list (l : List BackupInfo) : List BackupInfo :=
  List.insertionSort timeDesc l

/-- One conditional `mark_selections` pass (`if let Some(keep_x) = ...`). -/
def passK {K : Type} [DecidableEq K] (sel : BackupInfo → K) (o : Option Nat)
    (sorted : List BackupInfo) (mark : List (Int × PruneMark)) :
    List (Int × PruneMark) :=
  match o with
  | some k => mark_selections mark sorted k sel
  | none => mark

/-- The mark map `compute_prune_info` builds: incomplete-snapshot marks,
then the five bucket passes in source order (last, daily, weekly,
monthly, yearly). -/
def applyMarks (sorted : List BackupInfo) (o : PruneOptions) :
    List (Int × PruneMark) :=
  passK (fun i => i.year) o.keep_yearly sorted
    (passK (fun i => (i.year, i.month)) o.keep_monthly sorted
      (passK (fun i => (i.year, i.week)) o.keep_weekly sorted
        (passK (fun i => (i.year, i.month, i.day)) o.keep_daily sorted
          (passK (fun i => i.time) o.keep_last sorted
            (remove_incomplete_snapshots [] sorted)))))

/-- The final keep flag of a snapshot: marked `Keep` or `KeepPartial`. -/
def isKeptMark (mark : List (Int × PruneMark)) (t : Int) : Bool :=
  match mlookup t mark with
  | some PruneMark.Keep => true
  | some PruneMark.KeepPartial => true
  | _ => false

/-- Embedding of `compute_prune_info(list, options)`: pairs every snapshot (in the
sorted order the source leaves the list in) with its keep flag. -/
def compute_prune_info (list : List BackupInfo) (o : PruneOptions) :
    List (BackupInfo × Bool) :=
  (sort_list list).map
    (fun info => (info, isKeptMark (applyMarks (sort_list list) o) info.time))

end Prune

namespace Prune

theorem markSelLoop_preserves {K : Type} [DecidableEq K] (sel : BackupInfo → K)
    (already : List K) (keep : Nat) :
    ∀ (l : List BackupInfo) (mark : List (Int × PruneMark)) (inc : List K)
      (t : Int) (pm : PruneMark),
      mlookup t mark = some pm →
      mlookup t (markSelLoop sel already keep mark inc l) = some pm := by
  intro l
  induction l with
  | nil => intro mark inc t pm h; exact h
  | cons info rest ih =>
    intro mark inc t pm h
    unfold markSelLoop
    by_cases h1 : (mlookup info.time mark).isSome
    · rw [if_pos h1]
      exact ih mark inc t pm h
    · rw [if_neg h1]
      have hne : t ≠ info.time := by
        intro he
        rw [← he, h] at h1
        exact h1 rfl
      by_cases h2 : sel info ∈ already
      · rw [if_pos h2]
        exact ih mark inc t pm h
      · rw [if_neg h2]
        by_cases h3 : sel info ∉ inc
        · rw [if_pos h3]
          by_cases h4 : inc.length ≥ keep
          · rw [if_pos h4]
            exact h
          · rw [if_neg h4]
            exact ih _ _ t pm (by rw [mlookup, if_neg hne]; exact h)
        · rw [if_neg h3]
          exact ih _ _ t pm (by rw [mlookup, if_neg hne]; exact h)

theorem mark_selections_preserves {K : Type} [DecidableEq K]
    (mark : List (Int × PruneMark)) (list : List BackupInfo) (keep : Nat)
    (sel : BackupInfo → K) (t : Int) (pm : PruneMark)
    (h : mlookup t mark = some pm) :
    mlookup t (mark_selections mark list keep sel) = some pm :=
  markSelLoop_preserves sel _ keep list mark [] t pm h

theorem passK_preserves {K : Type} [DecidableEq K] (sel : BackupInfo → K)
    (o : Option Nat) (sorted : List BackupInfo)
    (mark : List (Int × PruneMark)) (t : Int) (pm : PruneMark)
    (h : mlookup t mark = some pm) :
    mlookup t (passK sel o sorted mark) = some pm := by
  cases o with
  | some k => exact mark_selections_preserves mark sorted k sel t pm h
  | none => exact h

theorem applyMarks_preserves (sorted : List BackupInfo) (o : PruneOptions)
    (t : Int) (pm : PruneMark)
    (h : mlookup t (remove_incomplete_snapshots [] sorted) = some pm) :
    mlookup t (applyMarks sorted o) = some pm := by
  unfold applyMarks
  exact passK_preserves _ _ _ _ t pm (passK_preserves _ _ _ _ t pm
    (passK_preserves _ _ _ _ t pm (passK_preserves _ _ _ _ t pm
      (passK_preserves _ _ _ _ t pm h))))

theorem isKeptMark_true_iff (mark : List (Int × PruneMark)) (t : Int) :
    isKeptMark mark t = true ↔
      mlookup t mark = some PruneMark.Keep ∨
      mlookup t mark = some PruneMark.KeepPartial := by
  unfold isKeptMark
  rcases h : mlookup t mark with _ | pm
  · simp
  · cases pm <;> simp

theorem markSelLoop_mono {K : Type} [DecidableEq K] (sel : BackupInfo → K)
    (already : List K) :
    ∀ (l : List BackupInfo) (mark : List (Int × PruneMark)) (inc : List K)
      (keep keep' : Nat) (t : Int), keep ≤ keep' →
      isKeptMark (markSelLoop sel already keep mark inc l) t = true →
      isKeptMark (markSelLoop sel already keep' mark inc l) t = true := by
  intro l
  induction l with
  | nil => intro mark inc keep keep' t _ h; exact h
  | cons info rest ih =>
    intro mark inc keep keep' t hkk h
    unfold markSelLoop at h ⊢
    by_cases h1 : (mlookup info.time mark).isSome
    · rw [if_pos h1] at h ⊢
      exact ih mark inc keep keep' t hkk h
    · rw [if_neg h1] at h ⊢
      by_cases h2 : sel info ∈ already
      · rw [if_pos h2] at h ⊢
        exact ih mark inc keep keep' t hkk h
      · rw [if_neg h2] at h ⊢
        by_cases h3 : sel info ∉ inc
        · rw [if_pos h3] at h ⊢
          by_cases h4 : inc.length ≥ keep
          · rw [if_pos h4] at h
            -- the short run breaks here and returns `mark`
            by_cases h5 : inc.length ≥ keep'
            · rw [if_pos h5]
              exact h
            · rw [if_neg h5]
              rcases (isKeptMark_true_iff mark t).mp h with hk | hk
              all_goals {
                have hne : t ≠ info.time := by
                  intro he
                  rw [← he, hk] at h1
                  exact h1 rfl
                refine (isKeptMark_true_iff _ t).mpr ?_
                have : mlookup t ((info.time, PruneMark.Keep) :: mark) =
                    mlookup t mark := by
                  rw [mlookup, if_neg hne]
                first
                | exact Or.inl (markSelLoop_preserves sel already keep' rest _ _
                    t _ (by rw [this]; exact hk))
                | exact Or.inr (markSelLoop_preserves sel already keep' rest _ _
                    t _ (by rw [this]; exact hk))
              }
          · rw [if_neg h4] at h
            rw [if_neg (by omega : ¬ inc.length ≥ keep')]
            exact ih _ _ keep keep' t hkk h
        · rw [if_neg h3] at h ⊢
          exact ih _ _ keep keep' t hkk h

theorem mark_selections_mono {K : Type} [DecidableEq K]
    (mark : List (Int × PruneMark)) (list : List BackupInfo)
    (keep keep' : Nat) (sel : BackupInfo → K) (t : Int) (hkk : keep ≤ keep')
    (h : isKeptMark (mark_selections mark list keep sel) t = true) :
    isKeptMark (mark_selections mark list keep' sel) t = true :=
  markSelLoop_mono sel _ list mark [] keep keep' t hkk h

end Prune

namespace Prune

theorem riLoop_lookup_notin :
    ∀ (l : List BackupInfo) (mark : List (Int × PruneMark)) (ku : Bool) (t : Int),
      (∀ x ∈ l, x.time ≠ t) →
      mlookup t (riLoop mark ku l) = mlookup t mark := by
  intro l
  induction l with
  | nil => intro mark ku t _; rfl
  | cons info rest ih =>
    intro mark ku t hne
    unfold riLoop
    by_cases hf : info.finished
    · rw [if_pos hf]
      exact ih mark false t (fun x hx => hne x (List.mem_cons_of_mem _ hx))
    · rw [if_neg hf]
      rw [ih _ false t (fun x hx => hne x (List.mem_cons_of_mem _ hx))]
      rw [mlookup, if_neg (hne info (List.mem_cons_self _ _)).symm]

theorem riLoop_false_remove :
    ∀ (l : List BackupInfo) (mark : List (Int × PruneMark)) (s : BackupInfo),
      s ∈ l → s.finished = false →
      l.Pairwise (fun a b => a.time ≠ b.time) →
      mlookup s.time (riLoop mark false l) = some PruneMark.Remove := by
  intro l
  induction l with
  | nil => intro mark s hs; exact absurd hs (List.not_mem_nil s)
  | cons x rest ih =>
    intro mark s hs hunf hpw
    rw [List.pairwise_cons] at hpw
    obtain ⟨hx, hrest⟩ := hpw
    by_cases hxs : x = s
    · subst hxs
      unfold riLoop
      rw [if_neg (by rw [hunf]; exact Bool.false_ne_true)]
      rw [riLoop_lookup_notin rest _ false x.time
        (fun y hy => (hx y hy).symm)]
      rw [mlookup, if_pos rfl]
      rfl
    · have hs' : s ∈ rest := by
        rcases List.mem_cons.mp hs with h | h
        · exact absurd h.symm hxs
        · exact h
      unfold riLoop
      by_cases hf : x.finished
      · rw [if_pos hf]
        exact ih mark s hs' hunf hrest
      · rw [if_neg hf]
        exact ih _ s hs' hunf hrest

end Prune

/-- Claim C5 (amended): increasing the count of the last bucket pass
(`keep_yearly`) can only grow the set of snapshots `compute_prune_info`
keeps.  (For the earlier buckets and for dropping an option to `None`
the original claim is false — see the counterexample.) -/
theorem c5_keep_yearly_monotone (list : List Prune.BackupInfo)
    (o : Prune.PruneOptions) (k k' : Nat) (hkk : k ≤ k')
    (s : Prune.BackupInfo)
    (h : (s, true) ∈ Prune.compute_prune_info list
      { o with keep_yearly := some k }) :
    (s, true) ∈ Prune.compute_prune_info list
      { o with keep_yearly := some k' } := by
  simp only [Prune.compute_prune_info, List.mem_map] at h ⊢
  obtain ⟨info, hmem, heq⟩ := h
  rw [Prod.mk.injEq] at heq
  obtain ⟨hinfo, hflag⟩ := heq
  subst hinfo
  refine ⟨info, hmem, ?_⟩
  rw [Prod.mk.injEq]
  refine ⟨rfl, ?_⟩
  unfold Prune.applyMarks at hflag ⊢
  simp only [Prune.passK] at hflag ⊢
  exact Prune.mark_selections_mono _ _ k k' _ info.time hkk hflag

/-- Snapshot taken 2021-04-05 (ISO week 14), finished. -/
def c5snapA : Prune.BackupInfo := ⟨300, 2021, 4, 5, 14, true⟩

/-- Snapshot taken 2021-04-01 (ISO week 13), finished. -/
def c5snapB : Prune.BackupInfo := ⟨200, 2021, 4, 1, 13, true⟩

/-- Snapshot taken 2021-03-29 (ISO week 13), finished. -/
def c5snapC : Prune.BackupInfo := ⟨100, 2021, 3, 29, 13, true⟩

/-- Counterexample to C5 as stated.  First half: with snapshots from
2021-04-05 (week 14), 2021-04-01 (week 13) and 2021-03-29 (week 13) and
`keep_monthly = 1`, raising `keep_weekly` from 1 to 2 stops keeping the
2021-03-29 snapshot (weekly now marks it `Remove` as a duplicate of week
13, and the monthly pass no longer reaches March because April is
already included), so the kept set does not grow.  Second half: changing
`keep_last` from `Some 1` to `None` (all options `None`) drops the only
snapshot from the kept set. -/
theorem c5_counterexample_weekly_and_none :
    (((c5snapC, true) ∈ Prune.compute_prune_info [c5snapA, c5snapB, c5snapC]
        ⟨none, none, some 1, some 1, none⟩) ∧
      ((c5snapC, false) ∈ Prune.compute_prune_info [c5snapA, c5snapB, c5snapC]
        ⟨none, none, some 2, some 1, none⟩) ∧
      ((c5snapC, true) ∉ Prune.compute_prune_info [c5snapA, c5snapB, c5snapC]
        ⟨none, none, some 2, some 1, none⟩)) ∧
    (((c5snapA, true) ∈ Prune.compute_prune_info [c5snapA]
        ⟨some 1, none, none, none, none⟩) ∧
      ((c5snapA, false) ∈ Prune.compute_prune_info [c5snapA]
        ⟨none, none, none, none, none⟩) ∧
      ((c5snapA, true) ∉ Prune.compute_prune_info [c5snapA]
        ⟨none, none, none, none, none⟩)) := by
  decide

/-- Witness for C5 (amended): raising `keep_yearly` from 1 to 2 keeps
the 2021-04-05 snapshot kept. -/
theorem c5_keep_yearly_monotone_witness :
    (1 ≤ 2 ∧ (c5snapA, true) ∈ Prune.compute_prune_info [c5snapA, c5snapC]
      { keep_last := none, keep_daily := none, keep_weekly := none,
        keep_monthly := none, keep_yearly := some 1 }) ∧
    (c5snapA, true) ∈ Prune.compute_prune_info [c5snapA, c5snapC]
      { keep_last := none, keep_daily := none, keep_weekly := none,
        keep_monthly := none, keep_yearly := some 2 } :=
  ⟨⟨by omega, by decide⟩,
   c5_keep_yearly_monotone [c5snapA, c5snapC]
     ⟨none, none, none, none, none⟩ 1 2 (by omega) c5snapA (by decide)⟩

/-- Claim C6: `compute_prune_info` keeps the newest snapshot lacking a
manifest (mark `KeepPartial`) when no finished snapshot is newer, and
marks an unfinished snapshot for removal whenever some finished
(manifest-bearing) snapshot is newer — for every snapshot list with
pairwise-distinct backup times and every `PruneOptions`. -/
theorem c6_unfinished_snapshot_handling (list : List Prune.BackupInfo)
    (o : Prune.PruneOptions) (s : Prune.BackupInfo)
    (hs : s ∈ list) (hunf : s.finished = false)
    (hdist : list.Pairwise (fun a b => a.time ≠ b.time)) :
    ((∀ u ∈ list, u.finished = false → u.time ≤ s.time) →
      (∀ f ∈ list, f.finished = true → f.time < s.time) →
      (s, true) ∈ Prune.compute_prune_info list o) ∧
    ((∃ f ∈ list, f.finished = true ∧ s.time < f.time) →
      (s, false) ∈ Prune.compute_prune_info list o) := by
  have hperm : List.Perm (Prune.sort_list list) list :=
    List.perm_insertionSort Prune.timeDesc list
  have hsorted : (Prune.sort_list list).Sorted Prune.timeDesc :=
    List.sorted_insertionSort Prune.timeDesc list
  have hsym : Symmetric (fun a b : Prune.BackupInfo => a.time ≠ b.time) :=
    fun x y h => h.symm
  have hdist' : (Prune.sort_list list).Pairwise (fun a b => a.time ≠ b.time) :=
    (hperm.pairwise_iff (fun {_ _} h => Ne.symm h)).mpr hdist
  have hss : s ∈ Prune.sort_list list := hperm.mem_iff.mpr hs
  have hpf := List.Pairwise.forall
    (R := fun a b : Prune.BackupInfo => a.time ≠ b.time) hsym hdist
  constructor
  · -- part (i): newest unfinished, no newer finished
    intro h1 h2
    have hmax : ∀ x ∈ list, x ≠ s → x.time < s.time := by
      intro x hx hxs
      have hne : x.time ≠ s.time := hpf hx hs hxs
      rcases hf : x.finished with _ | _
      · have := h1 x hx hf
        omega
      · exact h2 x hx hf
    rcases hsl : Prune.sort_list list with _ | ⟨x, rest⟩
    · rw [hsl] at hss
      exact absurd hss (List.not_mem_nil s)
    · have hxs : x = s := by
        by_contra hxs
        have hsrest : s ∈ rest := by
          rw [hsl] at hss
          rcases List.mem_cons.mp hss with h | h
          · exact absurd h.symm hxs
          · exact h
        have hxle : Prune.timeDesc x s := by
          rw [hsl] at hsorted
          rw [List.sorted_cons] at hsorted
          exact hsorted.1 s hsrest
        have hxmem : x ∈ list := hperm.mem_iff.mp
          (by rw [hsl]; exact List.mem_cons_self x rest)
        have hlt := hmax x hxmem hxs
        unfold Prune.timeDesc at hxle
        omega
      subst hxs
      have hresttimes : ∀ y ∈ rest, y.time ≠ x.time := by
        rw [hsl] at hdist'
        rw [List.pairwise_cons] at hdist'
        exact fun y hy => (hdist'.1 y hy).symm
      have hm0 : Prune.mlookup x.time
          (Prune.remove_incomplete_snapshots [] (Prune.sort_list list)) =
          some Prune.PruneMark.KeepPartial := by
        rw [hsl]
        unfold Prune.remove_incomplete_snapshots Prune.riLoop
        rw [if_neg (by rw [hunf]; exact Bool.false_ne_true)]
        rw [Prune.riLoop_lookup_notin rest _ false x.time hresttimes]
        rw [Prune.mlookup, if_pos rfl]
        rfl
      have hfinal := Prune.applyMarks_preserves (Prune.sort_list list) o
        x.time Prune.PruneMark.KeepPartial hm0
      have hkept : Prune.isKeptMark
          (Prune.applyMarks (Prune.sort_list list) o) x.time = true :=
        (Prune.isKeptMark_true_iff _ _).mpr (Or.inr hfinal)
      unfold Prune.compute_prune_info
      exact List.mem_map.mpr ⟨x, hss, by rw [hkept]⟩
  · -- part (ii): a finished snapshot is newer
    rintro ⟨f, hf, hffin, hft⟩
    have hfs : f ≠ s := by
      intro he
      rw [he, hunf] at hffin
      cases hffin
    rcases hsl : Prune.sort_list list with _ | ⟨x, rest⟩
    · rw [hsl] at hss
      exact absurd hss (List.not_mem_nil s)
    · have hfss : f ∈ Prune.sort_list list := hperm.mem_iff.mpr hf
      have hxs : x ≠ s := by
        intro he
        subst he
        rw [hsl] at hfss
        rcases List.mem_cons.mp hfss with h | h
        · exact hfs h
        · rw [hsl] at hsorted
          rw [List.sorted_cons] at hsorted
          have hd := hsorted.1 f h
          unfold Prune.timeDesc at hd
          omega
      have hsrest : s ∈ rest := by
        rw [hsl] at hss
        rcases List.mem_cons.mp hss with h | h
        · exact absurd h.symm hxs
        · exact h
      have hrestpw : rest.Pairwise (fun a b => a.time ≠ b.time) := by
        rw [hsl] at hdist'
        exact (List.pairwise_cons.mp hdist').2
      have hm0 : Prune.mlookup s.time
          (Prune.remove_incomplete_snapshots [] (Prune.sort_list list)) =
          some Prune.PruneMark.Remove := by
        rw [hsl]
        unfold Prune.remove_incomplete_snapshots Prune.riLoop
        by_cases hxf : x.finished
        · rw [if_pos hxf]
          exact Prune.riLoop_false_remove rest [] s hsrest hunf hrestpw
        · rw [if_neg hxf]
          exact Prune.riLoop_false_remove rest _ s hsrest hunf hrestpw
      have hfinal := Prune.applyMarks_preserves (Prune.sort_list list) o
        s.time Prune.PruneMark.Remove hm0
      have hkept : Prune.isKeptMark
          (Prune.applyMarks (Prune.sort_list list) o) s.time = false := by
        unfold Prune.isKeptMark
        rw [hfinal]
      unfold Prune.compute_prune_info
      exact List.mem_map.mpr ⟨s, hss, by rw [hkept]⟩

/-- Witness for C6: a two-snapshot group whose newest snapshot is
unfinished and therefore kept as partial. -/
theorem c6_unfinished_snapshot_witness :
    ((⟨300, 2021, 4, 5, 14, false⟩ : Prune.BackupInfo) ∈
        [(⟨300, 2021, 4, 5, 14, false⟩ : Prune.BackupInfo),
         ⟨200, 2021, 4, 1, 13, true⟩] ∧
      (⟨300, 2021, 4, 5, 14, false⟩ : Prune.BackupInfo).finished = false ∧
      List.Pairwise (fun a b : Prune.BackupInfo => a.time ≠ b.time)
        [⟨300, 2021, 4, 5, 14, false⟩, ⟨200, 2021, 4, 1, 13, true⟩]) ∧
    ((⟨300, 2021, 4, 5, 14, false⟩ : Prune.BackupInfo), true) ∈
      Prune.compute_prune_info
        [⟨300, 2021, 4, 5, 14, false⟩, ⟨200, 2021, 4, 1, 13, true⟩]
        ⟨some 1, none, none, none, none⟩ :=
  ⟨⟨by decide, by decide, by decide⟩,
   (c6_unfinished_snapshot_handling
     [⟨300, 2021, 4, 5, 14, false⟩, ⟨200, 2021, 4, 1, 13, true⟩]
     ⟨some 1, none, none, none, none⟩ ⟨300, 2021, 4, 5, 14, false⟩
     (by decide) (by decide) (by decide)).1 (by decide) (by decide)⟩

/-! ## Pull/sync (`src/client/pull.rs`)

The control flow of `pull_group`, `pull_store` and `pull_snapshot_from`
is embedded over abstract outcomes: the result of pulling a single
snapshot or group is an oracle parameter, network items carry only the
fields the control flow inspects. -/

namespace Pull

/-- A remote `SnapshotListItem`: backup time and the `size` field
(`None` while the backup is still in progress on the remote). -/
structure SnapshotListItem where
  backup_time : Int
  size : Option Int
deriving DecidableEq

/-- Ascending order on backup times
(`list.sort_unstable_by(|a, b| a.backup_time.cmp(&b.backup_time))`). -/
def timeAsc (a b : SnapshotListItem) : Prop := a.backup_time ≤ b.backup_time

instance : DecidableRel timeAsc := fun a _ => Int.decLe a.backup_time _

instance : IsTotal SnapshotListItem timeAsc :=
  ⟨fun x y => by unfold timeAsc; omega⟩

instance : IsTrans SnapshotListItem timeAsc :=
  ⟨fun x y z h1 h2 => by unfold timeAsc at *; omega⟩

def sortAsc (l : List SnapshotListItem) : List SnapshotListItem :=
  List.insertionSort timeAsc l

/-- What `pull_group` does with one remote snapshot: skipped because it
is in progress, skipped (and recorded in `SkipInfo`) because it is older
than the last successful local backup, synced, or failed. -/
inductive PullEvent where
  | skippedInProgress (t : Int)
  | skippedOld (t : Int)
  | synced (t : Int)
  | failed (t : Int)
deriving DecidableEq

/-- The skip test of `pull_group`:
`if let Some(last_sync_time) = last_sync { last_sync_time > backup_time }`. -/
def tooOld (lastSync : Option Int) (t : Int) : Bool :=
  match lastSync with
  | some t0 => decide (t0 > t)
  | none => false

/-- The loop body of `pull_group`: `pullOk t` is whether
`pull_snapshot_from` succeeds for the snapshot at time `t`; a failure
stops the loop (`result?; // stop on error`), so later snapshots produce
no events.  The returned flag is overall success. -/
def pullGroupLoop (pullOk : Int → Bool) (lastSync : Option Int) :
    List SnapshotListItem → List PullEvent × Bool
  | [] => ([], true)
  | item :: rest =>
    if item.size.isNone then
      (PullEvent.skippedInProgress item.backup_time ::
        (pullGroupLoop pullOk lastSync rest).1,
       (pullGroupLoop pullOk lastSync rest).2)
    else if tooOld lastSync item.backup_time then
      (PullEvent.skippedOld item.backup_time ::
        (pullGroupLoop pullOk lastSync rest).1,
       (pullGroupLoop pullOk lastSync rest).2)
    else if pullOk item.backup_time then
      (PullEvent.synced item.backup_time ::
        (pullGroupLoop pullOk lastSync rest).1,
       (pullGroupLoop pullOk lastSync rest).2)
    else
      ([PullEvent.failed item.backup_time], false)

/-- Embedding of `pull_group`: sort the remote snapshot list ascending by time, then
run the loop. -/
def pull_group (pullOk : Int → Bool) (lastSync : Option Int)
    (list : List SnapshotListItem) : List PullEvent × Bool :=
  pullGroupLoop pullOk lastSync (sortAsc list)

/-- Outcome of handling one group inside `pull_store`. -/
inductive GroupResult where
  | lockFailed
  | ownerMismatch
  | pullFailed
  | ok
deriving DecidableEq

/-- The group loop of `pull_store` (with `delete = false`): every
non-`ok` outcome logs, sets the error flag and continues with the next
group; at the end the whole sync fails iff the flag is set.  Returns the
group ids attempted and the final error flag. -/
def pullStoreLoop (errors : Bool) :
    List (Nat × GroupResult) → List Nat × Bool
  | [] => ([], errors)
  | (gid, r) :: rest =>
    (gid :: (pullStoreLoop (if r = GroupResult.ok then errors else true) rest).1,
     (pullStoreLoop (if r = GroupResult.ok then errors else true) rest).2)

def pull_store (groups : List (Nat × GroupResult)) : List Nat × Bool :=
  pullStoreLoop false groups

/-- Embedding of `pull_snapshot_from`: on a newly created snapshot directory
(`is_new`), a failed pull removes the partial snapshot directory with
`remove_backup_dir(snapshot, force = true)` before the error is
returned; on a re-sync the failure is returned with no removal.  The
first component lists the `force` flags of the `remove_backup_dir`
calls performed. -/
def pull_snapshot_from (is_new : Bool) (pullRes : Except String Unit) :
    List Bool × Except String Unit :=
  if is_new then
    match pullRes with
    | Except.error e => ([true], Except.error e)
    | Except.ok _ => ([], Except.ok ())
  else
    match pullRes with
    | Except.error e => ([], Except.error e)
    | Except.ok _ => ([], Except.ok ())

end Pull

namespace Pull

/-- With every snapshot pull succeeding, the group loop produces one
event per item in order: skip in-progress items, skip-and-record items
older than the last successful local backup, and sync the rest. -/
theorem pullGroupLoop_all_ok (pullOk : Int → Bool) (lastSync : Option Int)
    (hok : ∀ t, pullOk t = true) :
    ∀ l : List SnapshotListItem,
      (pullGroupLoop pullOk lastSync l).2 = true ∧
      (pullGroupLoop pullOk lastSync l).1 = l.map (fun item =>
        if item.size.isNone then
          PullEvent.skippedInProgress item.backup_time
        else if tooOld lastSync item.backup_time then
          PullEvent.skippedOld item.backup_time
        else PullEvent.synced item.backup_time) := by
  intro l
  induction l with
  | nil => exact ⟨rfl, rfl⟩
  | cons item rest ih =>
    unfold pullGroupLoop
    simp only [List.map_cons]
    by_cases hsz : item.size.isNone
    · rw [if_pos hsz, if_pos hsz]
      exact ⟨ih.1, by rw [ih.2]⟩
    · rw [if_neg hsz, if_neg hsz]
      by_cases hold : tooOld lastSync item.backup_time
      · rw [if_pos hold, if_pos hold]
        exact ⟨ih.1, by rw [ih.2]⟩
      · rw [if_neg hold, if_neg hold, if_pos (hok item.backup_time)]
        exact ⟨ih.1, by rw [ih.2]⟩

/-- When the group loop fails, its event trace ends at the failed
snapshot: nothing after it is processed. -/
theorem pullGroupLoop_failed_last (pullOk : Int → Bool) (lastSync : Option Int) :
    ∀ l : List SnapshotListItem,
      (pullGroupLoop pullOk lastSync l).2 = false →
      ∃ evs t, (pullGroupLoop pullOk lastSync l).1 =
        evs ++ [PullEvent.failed t] := by
  intro l
  induction l with
  | nil => intro h; cases h
  | cons item rest ih =>
    intro h
    unfold pullGroupLoop at h ⊢
    by_cases hsz : item.size.isNone
    · rw [if_pos hsz] at h ⊢
      obtain ⟨evs, t, he⟩ := ih h
      exact ⟨PullEvent.skippedInProgress item.backup_time :: evs, t,
        by rw [he]; rfl⟩
    · rw [if_neg hsz] at h ⊢
      by_cases hold : tooOld lastSync item.backup_time
      · rw [if_pos hold] at h ⊢
        obtain ⟨evs, t, he⟩ := ih h
        exact ⟨PullEvent.skippedOld item.backup_time :: evs, t,
          by rw [he]; rfl⟩
      · rw [if_neg hold] at h ⊢
        by_cases hpk : pullOk item.backup_time
        · rw [if_pos hpk] at h ⊢
          obtain ⟨evs, t, he⟩ := ih h
          exact ⟨PullEvent.synced item.backup_time :: evs, t,
            by rw [he]; rfl⟩
        · rw [if_neg hpk] at h ⊢
          exact ⟨[], item.backup_time, rfl⟩

/-- The store loop attempts every group and ends with the error flag set
iff some group did not complete cleanly. -/
theorem pullStoreLoop_spec :
    ∀ (l : List (Nat × GroupResult)) (e : Bool),
      (pullStoreLoop e l).1 = l.map Prod.fst ∧
      ((pullStoreLoop e l).2 = true ↔
        e = true ∨ ∃ g ∈ l, g.2 ≠ GroupResult.ok) := by
  intro l
  induction l with
  | nil => intro e; refine ⟨rfl, ?_⟩; simp [pullStoreLoop]
  | cons g rest ih =>
    intro e
    obtain ⟨gid, r⟩ := g
    unfold pullStoreLoop
    refine ⟨by rw [(ih _).1]; rfl, ?_⟩
    rw [(ih _).2]
    by_cases hr : r = GroupResult.ok
    · subst hr
      simp
    · simp [hr]

end Pull

/-- Counterexample to C4 as stated: with two eligible remote snapshots
at times 100 and 200 and the pull of the older one failing, `pull_group`
stops at the failure (`result?; // stop on error`): the newer snapshot
at time 200 is never processed — no event for it exists — contradicting
"does not abort the pull of the remaining (newer) snapshots". -/
theorem c4_counterexample_group_stops_on_error :
    (Pull.pull_group (fun t => decide (t ≠ 100)) none
      [⟨100, some 1⟩, ⟨200, some 1⟩]).1 = [Pull.PullEvent.failed 100] ∧
    (Pull.pull_group (fun t => decide (t ≠ 100)) none
      [⟨100, some 1⟩, ⟨200, some 1⟩]).2 = false ∧
    Pull.PullEvent.synced 200 ∉
      (Pull.pull_group (fun t => decide (t ≠ 100)) none
        [⟨100, some 1⟩, ⟨200, some 1⟩]).1 := by
  decide

/-- Claim C4 (amended): a failure while pulling one snapshot aborts the
remaining snapshots of that group (the group's event trace ends at the
failed snapshot); the error is then handled at the group level by
`pull_store`, which still attempts every group and fails the whole sync
at the end iff any group did not complete cleanly. -/
theorem c4_sync_error_handling :
    (∀ (pullOk : Int → Bool) (lastSync : Option Int)
      (list : List Pull.SnapshotListItem),
      (Pull.pull_group pullOk lastSync list).2 = false →
      ∃ evs t, (Pull.pull_group pullOk lastSync list).1 =
        evs ++ [Pull.PullEvent.failed t]) ∧
    (∀ groups : List (Nat × Pull.GroupResult),
      (Pull.pull_store groups).1 = groups.map Prod.fst ∧
      ((Pull.pull_store groups).2 = true ↔
        ∃ g ∈ groups, g.2 ≠ Pull.GroupResult.ok)) := by
  constructor
  · intro pullOk lastSync list h
    exact Pull.pullGroupLoop_failed_last pullOk lastSync (Pull.sortAsc list) h
  · intro groups
    refine ⟨(Pull.pullStoreLoop_spec groups false).1, ?_⟩
    unfold Pull.pull_store
    rw [(Pull.pullStoreLoop_spec groups false).2]
    simp

/-- Witness for C4 (amended): a concrete failing group run and a store
run over one failing and one clean group. -/
theorem c4_sync_error_handling_witness :
    (∃ evs t, (Pull.pull_group (fun _ => false) none
      [(⟨100, some 1⟩ : Pull.SnapshotListItem)]).1 =
        evs ++ [Pull.PullEvent.failed t]) ∧
    (Pull.pull_store [(1, Pull.GroupResult.pullFailed),
      (2, Pull.GroupResult.ok)]).1 = [1, 2] ∧
    (Pull.pull_store [(1, Pull.GroupResult.pullFailed),
      (2, Pull.GroupResult.ok)]).2 = true :=
  ⟨c4_sync_error_handling.1 (fun _ => false) none [⟨100, some 1⟩] (by decide),
   (c4_sync_error_handling.2 [(1, Pull.GroupResult.pullFailed),
     (2, Pull.GroupResult.ok)]).1,
   ((c4_sync_error_handling.2 [(1, Pull.GroupResult.pullFailed),
     (2, Pull.GroupResult.ok)]).2).mpr ⟨(1, Pull.GroupResult.pullFailed),
       by decide, by decide⟩⟩

/-- Claim C8: `pull_group` sorts the remote snapshot list ascending by
backup time and processes it oldest-first; snapshots still in progress
on the remote (`size` is null) produce only a skip event, snapshots
strictly older than the newest successful local backup produce only a
`SkipInfo` skip event, and every other snapshot is synced — one event
per remote snapshot, in sorted order, when no pull fails. -/
theorem c8_pull_group_selection (list : List Pull.SnapshotListItem)
    (lastSync : Option Int) (pullOk : Int → Bool)
    (hok : ∀ t, pullOk t = true) :
    (Pull.pull_group pullOk lastSync list).2 = true ∧
    (Pull.pull_group pullOk lastSync list).1 =
      (Pull.sortAsc list).map (fun item =>
        if item.size.isNone then
          Pull.PullEvent.skippedInProgress item.backup_time
        else if Pull.tooOld lastSync item.backup_time then
          Pull.PullEvent.skippedOld item.backup_time
        else Pull.PullEvent.synced item.backup_time) ∧
    (Pull.sortAsc list).Sorted Pull.timeAsc ∧
    List.Perm (Pull.sortAsc list) list :=
  ⟨(Pull.pullGroupLoop_all_ok pullOk lastSync hok (Pull.sortAsc list)).1,
   (Pull.pullGroupLoop_all_ok pullOk lastSync hok (Pull.sortAsc list)).2,
   List.sorted_insertionSort Pull.timeAsc list,
   List.perm_insertionSort Pull.timeAsc list⟩

/-- Witness for C8: remote list with an in-progress snapshot (time 150),
an old snapshot (time 50) and a new one (time 200), local last sync at
time 100. -/
theorem c8_pull_group_selection_witness :
    (∀ t : Int, (fun _ : Int => true) t = true) ∧
    (Pull.pull_group (fun _ => true) (some 100)
      [⟨200, some 7⟩, ⟨150, none⟩, ⟨50, some 3⟩]).1 =
      [Pull.PullEvent.skippedOld 50, Pull.PullEvent.skippedInProgress 150,
       Pull.PullEvent.synced 200] :=
  ⟨fun _ => rfl,
   by
    rw [(c8_pull_group_selection [⟨200, some 7⟩, ⟨150, none⟩, ⟨50, some 3⟩]
      (some 100) (fun _ => true) (fun _ => rfl)).2.1]
    decide⟩

/-- Claim C10: a failed pull of a snapshot whose local directory was
newly created removes that directory with `remove_backup_dir(force =
true)` and returns the error; a failed re-sync of a pre-existing
snapshot returns the error without removing anything; successful pulls
remove nothing. -/
theorem c10_failed_new_snapshot_cleanup (e : String) :
    Pull.pull_snapshot_from true (Except.error e) =
      ([true], Except.error e) ∧
    Pull.pull_snapshot_from false (Except.error e) =
      ([], Except.error e) ∧
    (∀ b : Bool, Pull.pull_snapshot_from b (Except.ok ()) =
      ([], Except.ok ())) := by
  refine ⟨rfl, rfl, ?_⟩
  intro b
  cases b <;> rfl

/-- Witness for C10 at a concrete error value. -/
theorem c10_failed_new_snapshot_cleanup_witness :
    Pull.pull_snapshot_from true (Except.error "pull error") =
      ([true], Except.error "pull error") :=
  (c10_failed_new_snapshot_cleanup "pull error").1


/-! ## Tape (`src/tape/drive/lto/sg_tape.rs`,
`src/tape/file_formats/catalog_archive.rs`)

`SgTape::write_block` issues a SCSI WRITE and inspects the result; the
device's response is a model parameter.  `tape_write_catalog` drives an
abstract `TapeWrite`; the outcomes of its calls are model parameters. -/

namespace Tape

/-- Result of a SCSI command: clean success, a sense condition
`(sense_key, asc, ascq)`, or any other error. -/
inductive ScsiResult where
  | ok
  | sense (key asc ascq : Nat)
  | other
deriving DecidableEq

/-- The `match sg_raw.do_out_command(..)` of `SgTape::write_block`:
clean write returns `false`, the LEOM sense condition `(0, 0, 2)`
returns `true`, any other device error fails. -/
def writeBlockResult : ScsiResult → Except String Bool
  | ScsiResult.ok => Except.ok false
  | ScsiResult.sense key asc ascq =>
    if key = 0 ∧ asc = 0 ∧ ascq = 2 then Except.ok true
    else Except.error "write failed"
  | ScsiResult.other => Except.error "write failed"

/-- Embedding of `SgTape::write_block(data)`: too-large writes fail before reaching
the device. -/
def write_block (dataLen : Nat) (res : ScsiResult) : Except String Bool :=
  if dataLen > 0x800000 then Except.error "write failed - data too large"
  else writeBlockResult res

/-- An I/O error as `tape_write_catalog` distinguishes it: whether it is
`ENOSPC`. -/
structure IoError where
  enospc : Bool
deriving DecidableEq

/-- The decision chain of `tape_write_catalog` over the outcomes of
`write_header`, the catalog-file copy loop, and
`logical_end_of_media()`: returns the `finish(incomplete?)` calls
performed and the result (`Ok (some ())` stands for
`Ok(Some(content_uuid))`, `Ok none` for `Ok(None)`). -/
def catalogSteps : Except IoError Bool → Except IoError Unit → Bool →
    List Bool × Except IoError (Option Unit)
  | Except.error e, _, _ => ([], Except.error e)
  | Except.ok true, _, _ => ([true], Except.ok none)
  | Except.ok false, Except.ok _, _ => ([false], Except.ok (some ()))
  | Except.ok false, Except.error e, leom =>
    if e.enospc ∧ leom then ([true], Except.ok none)
    else ([], Except.error e)

/-- One run of the abstract `TapeWrite` collaborator as
`tape_write_catalog` observes it. -/
structure TapeWriterRun where
  headerLeom : Except IoError Bool
  copyResult : Except IoError Unit
  leomFlag : Bool

/-- Embedding of `tape_write_catalog`. -/
def tape_write_catalog (w : TapeWriterRun) :
    List Bool × Except IoError (Option Unit) :=
  catalogSteps w.headerLeom w.copyResult w.leomFlag

end Tape

/-- Claim C7: `SgTape::write_block` returns `true` exactly when the
device signals LEOM through sense data `(0, 0, 2)` and `false` exactly
on plain success (for block sizes the function accepts); and
`tape_write_catalog` reacts to LEOM — whether reported by `write_header`
or as `ENOSPC` with the LEOM flag set during the copy — by finishing the
tape file marked incomplete (`finish(true)`) and returning `Ok(None)`,
i.e. reporting that not all data was written, while a clean run finishes
complete and returns the content uuid. -/
theorem c7_tape_leom_handling (dataLen : Nat) (res : Tape.ScsiResult)
    (hlen : dataLen ≤ 0x800000) :
    ((Tape.write_block dataLen res = Except.ok true ↔
        res = Tape.ScsiResult.sense 0 0 2) ∧
      (Tape.write_block dataLen res = Except.ok false ↔
        res = Tape.ScsiResult.ok)) ∧
    (∀ w : Tape.TapeWriterRun,
      (w.headerLeom = Except.ok true →
        Tape.tape_write_catalog w = ([true], Except.ok none)) ∧
      (∀ e, w.headerLeom = Except.ok false → w.copyResult = Except.error e →
        e.enospc = true → w.leomFlag = true →
        Tape.tape_write_catalog w = ([true], Except.ok none)) ∧
      (w.headerLeom = Except.ok false → w.copyResult = Except.ok () →
        Tape.tape_write_catalog w = ([false], Except.ok (some ())))) := by
  have hnb : ¬ dataLen > 0x800000 := by omega
  have hwb : Tape.write_block dataLen res = Tape.writeBlockResult res := by
    unfold Tape.write_block
    rw [if_neg hnb]
  constructor
  · rw [hwb]
    constructor
    · constructor
      · intro h
        rcases res with _ | ⟨k, a, q⟩ | _
        · cases h
        · rw [Tape.writeBlockResult] at h
          by_cases hs : k = 0 ∧ a = 0 ∧ q = 2
          · rw [hs.1, hs.2.1, hs.2.2]
          · rw [if_neg hs] at h
            cases h
        · cases h
      · intro h
        subst h
        rw [Tape.writeBlockResult, if_pos ⟨rfl, rfl, rfl⟩]
    · constructor
      · intro h
        rcases res with _ | ⟨k, a, q⟩ | _
        · rfl
        · rw [Tape.writeBlockResult] at h
          by_cases hs : k = 0 ∧ a = 0 ∧ q = 2
          · rw [if_pos hs] at h
            cases h
          · rw [if_neg hs] at h
            cases h
        · cases h
      · intro h
        subst h
        rfl
  · intro w
    refine ⟨?_, ?_, ?_⟩
    · intro h
      unfold Tape.tape_write_catalog
      rw [h, Tape.catalogSteps]
    · intro e h1 h2 h3 h4
      unfold Tape.tape_write_catalog
      rw [h1, h2, h4, Tape.catalogSteps, if_pos ⟨h3, rfl⟩]
    · intro h1 h2
      unfold Tape.tape_write_catalog
      rw [h1, h2, Tape.catalogSteps]

/-- Witness for C7: a 64-byte write that the device answers with the
LEOM sense condition, and a writer run that hits LEOM while writing the
header. -/
theorem c7_tape_leom_handling_witness :
    ((64 : Nat) ≤ 0x800000 ∧
      Tape.write_block 64 (Tape.ScsiResult.sense 0 0 2) = Except.ok true) ∧
    Tape.tape_write_catalog ⟨Except.ok true, Except.ok (), false⟩ =
      ([true], Except.ok none) :=
  ⟨⟨by norm_num,
    ((c7_tape_leom_handling 64 (Tape.ScsiResult.sense 0 0 2)
      (by norm_num)).1.1).mpr rfl⟩,
   ((c7_tape_leom_handling 64 Tape.ScsiResult.ok (by norm_num)).2
     ⟨Except.ok true, Except.ok (), false⟩).1 rfl⟩

/-! ## Chunk streams (`src/backup/chunk_stream.rs`)

The streams are driven to completion: the input is the list of buffers
the inner stream yields before ending.  `ChunkStream`'s content-defined
chunker (`proxmox_protocol::Chunker`) is a model parameter: a stateful
`scan` function returning the boundary (0 = no boundary); the source
panics when the boundary exceeds the scanned data, modelled as `none`.
`FixedChunkStream` computes `self.chunk_size - buffer.len()` in `usize`
arithmetic, which wraps on underflow (release build); the wrap is
modelled explicitly. -/

namespace Streams

/-- Process the `scan` buffer of `ChunkStream` until no boundary is
found: emits chunks, returns the new chunker state and accumulation
buffer (`none` models the panic on an out-of-range boundary). -/
def drain {σ : Type} (scan : σ → List Nat → Nat × σ) (st : σ)
    (buffer data : List Nat) : Option (List (List Nat) × σ × List Nat) :=
  if h0 : (scan st data).1 = 0 then
    some ([], (scan st data).2, buffer ++ data)
  else if heq : (scan st data).1 = data.length then
    some ([buffer ++ data], (scan st data).2, [])
  else if hlt : (scan st data).1 < data.length then
    match drain scan (scan st data).2 [] (data.drop (scan st data).1) with
    | none => none
    | some (chunks, st2, buf2) =>
      some ((buffer ++ data.take (scan st data).1) :: chunks, st2, buf2)
  else none
termination_by data.length
decreasing_by
  simp_wf
  omega

/-- Drive `ChunkStream::poll` over the whole input: each yielded buffer
is appended to the scan buffer and drained; at end of input the
accumulation buffer is emitted when non-empty. -/
def chunkStreamRun {σ : Type} (scan : σ → List Nat → Nat × σ) :
    σ → List Nat → List (List Nat) → Option (List (List Nat))
  | _, buffer, [] => some (if buffer.length > 0 then [buffer] else [])
  | st, buffer, item :: rest =>
    (drain scan st buffer item).bind (fun r =>
      (chunkStreamRun scan r.2.1 r.2.2 rest).map (fun out => r.1 ++ out))

/-- usize wrap modulus. -/
def USIZE_MOD : Nat := 18446744073709551616

/-- The `need = self.chunk_size - buffer.len()` computation of
`FixedChunkStream::poll` with usize wrap-around on underflow. -/
def fixedNeed (cs bufLen : Nat) : Nat :=
  if bufLen ≤ cs then cs - bufLen else USIZE_MOD - (bufLen - cs)

/-- One `Ready(Some(data))` step of `FixedChunkStream::poll`: emitted
chunks plus the new buffer (the buffer is created by
`get_or_insert_with` even when nothing is emitted). -/
def fixedStep (cs : Nat) (buffer : Option (List Nat)) (data : List Nat) :
    List (List Nat) × Option (List Nat) :=
  if fixedNeed cs (buffer.getD []).length > data.length then
    ([], some (buffer.getD [] ++ data))
  else if fixedNeed cs (buffer.getD []).length = data.length then
    ([buffer.getD [] ++ data], none)
  else
    ([buffer.getD [] ++ data.take (fixedNeed cs (buffer.getD []).length)],
     some (data.drop (fixedNeed cs (buffer.getD []).length)))

/-- Drive `FixedChunkStream::poll` over the whole input; at end of input
`self.buffer.take()` is returned, so a present (even empty) buffer is
emitted as the final chunk. -/
def fixedRun (cs : Nat) : Option (List Nat) → List (List Nat) → List (List Nat)
  | buffer, [] =>
    match buffer with
    | none => []
    | some b => [b]
  | buffer, item :: rest =>
    (fixedStep cs buffer item).1 ++ fixedRun cs (fixedStep cs buffer item).2 rest

end Streams

namespace Streams

/-- Lemma: `drain` succeeds under the chunker contract (boundary within the
scanned data), preserves content, and only emits non-empty chunks. -/
theorem drain_spec {σ : Type} (scan : σ → List Nat → Nat × σ)
    (hscan : ∀ s d, (scan s d).1 ≤ d.length) :
    ∀ (n : Nat) (data : List Nat), data.length ≤ n →
    ∀ (st : σ) (buffer : List Nat),
      ∃ chunks st2 buf2,
        drain scan st buffer data = some (chunks, st2, buf2) ∧
        chunks.flatten ++ buf2 = buffer ++ data ∧
        ∀ c ∈ chunks, c ≠ [] := by
  intro n
  induction n with
  | zero =>
    intro data hd st buffer
    have hnil : data = [] := List.eq_nil_of_length_eq_zero (by omega)
    subst hnil
    have h0 : (scan st []).1 = 0 := by
      have h := hscan st []
      rw [List.length_nil] at h
      omega
    unfold drain
    rw [dif_pos h0]
    exact ⟨[], (scan st []).2, buffer ++ [], rfl, by simp, by simp⟩
  | succ m ih =>
    intro data hd st buffer
    unfold drain
    by_cases h0 : (scan st data).1 = 0
    · rw [dif_pos h0]
      exact ⟨[], (scan st data).2, buffer ++ data, rfl, by simp, by simp⟩
    · rw [dif_neg h0]
      have hdnil : data ≠ [] := by
        intro he
        subst he
        have h := hscan st []
        rw [List.length_nil] at h
        omega
      by_cases heq : (scan st data).1 = data.length
      · rw [dif_pos heq]
        refine ⟨[buffer ++ data], (scan st data).2, [], rfl, by simp, ?_⟩
        intro c hc
        rw [List.mem_singleton] at hc
        subst hc
        simp [hdnil]
      · have hlt : (scan st data).1 < data.length :=
          lt_of_le_of_ne (hscan st data) heq
        rw [dif_neg heq, dif_pos hlt]
        obtain ⟨chunks, st2, buf2, hdr, hjoin, hne⟩ :=
          ih (data.drop (scan st data).1)
            (by rw [List.length_drop]; omega) (scan st data).2 []
        rw [hdr]
        refine ⟨(buffer ++ data.take (scan st data).1) :: chunks, st2, buf2,
          rfl, ?_, ?_⟩
        · rw [List.flatten_cons, List.append_assoc, hjoin, List.nil_append,
            List.append_assoc, List.take_append_drop]
        · intro c hc
          rcases List.mem_cons.mp hc with hc | hc
          · subst hc
            have htk : (data.take (scan st data).1).length ≠ 0 := by
              rw [List.length_take]
              omega
            intro he
            rw [List.append_eq_nil] at he
            rw [he.2] at htk
            exact htk rfl
          · exact hne c hc

/-- Lemma: `ChunkStream` driven to completion under the chunker contract:
succeeds, preserves the concatenated content, and never emits an empty
chunk. -/
theorem chunkStreamRun_spec {σ : Type} (scan : σ → List Nat → Nat × σ)
    (hscan : ∀ s d, (scan s d).1 ≤ d.length) :
    ∀ (input : List (List Nat)) (st : σ) (buffer : List Nat),
      ∃ out, chunkStreamRun scan st buffer input = some out ∧
        out.flatten = buffer ++ input.flatten ∧
        ∀ c ∈ out, c ≠ [] := by
  intro input
  induction input with
  | nil =>
    intro st buffer
    refine ⟨if buffer.length > 0 then [buffer] else [], rfl, ?_, ?_⟩
    · by_cases hb : buffer.length > 0
      · rw [if_pos hb]
        simp
      · rw [if_neg hb]
        have : buffer = [] := List.eq_nil_of_length_eq_zero (by omega)
        simp [this]
    · intro c hc
      by_cases hb : buffer.length > 0
      · rw [if_pos hb] at hc
        rw [List.mem_singleton] at hc
        subst hc
        intro he
        rw [he] at hb
        simp at hb
      · rw [if_neg hb] at hc
        simp at hc
  | cons item rest ih =>
    intro st buffer
    obtain ⟨chunks, st2, buf2, hdr, hjoin, hne⟩ :=
      drain_spec scan hscan item.length item (le_refl _) st buffer
    obtain ⟨out, hrun, hojoin, hone⟩ := ih st2 buf2
    refine ⟨chunks ++ out, ?_, ?_, ?_⟩
    · unfold chunkStreamRun
      rw [hdr, Option.some_bind, hrun, Option.map_some']
    · rw [List.flatten_append, hojoin, ← List.append_assoc, hjoin,
        List.flatten_cons, List.append_assoc]
    · intro c hc
      rcases List.mem_append.mp hc with hc | hc
      · exact hne c hc
      · exact hone c hc

end Streams

namespace Streams

theorem fixedStep_flatten (cs : Nat) (buffer : Option (List Nat))
    (data : List Nat) :
    (fixedStep cs buffer data).1.flatten ++
      ((fixedStep cs buffer data).2.getD []) =
      buffer.getD [] ++ data := by
  unfold fixedStep
  by_cases h1 : fixedNeed cs (buffer.getD []).length > data.length
  · rw [if_pos h1]
    simp
  · rw [if_neg h1]
    by_cases h2 : fixedNeed cs (buffer.getD []).length = data.length
    · rw [if_pos h2]
      simp
    · rw [if_neg h2]
      simp [List.append_assoc, List.take_append_drop]

/-- Lemma: `FixedChunkStream` driven to completion preserves the concatenated
content. -/
theorem fixedRun_flatten (cs : Nat) :
    ∀ (input : List (List Nat)) (buffer : Option (List Nat)),
      (fixedRun cs buffer input).flatten = buffer.getD [] ++ input.flatten := by
  intro input
  induction input with
  | nil =>
    intro buffer
    cases buffer <;> simp [fixedRun]
  | cons item rest ih =>
    intro buffer
    unfold fixedRun
    rw [List.flatten_append, ih _, ← List.append_assoc, fixedStep_flatten]
    simp

theorem fixedStep_sizes (cs : Nat) (buffer : Option (List Nat))
    (data : List Nat)
    (hb : (buffer.getD []).length < 2 ^ 63) (hd : data.length < 2 ^ 63) :
    ∀ c ∈ (fixedStep cs buffer data).1, c.length = cs := by
  intro c hc
  unfold fixedStep at hc
  by_cases h1 : fixedNeed cs (buffer.getD []).length > data.length
  · rw [if_pos h1] at hc
    simp at hc
  · rw [if_neg h1] at hc
    have hle : (buffer.getD []).length ≤ cs := by
      by_contra hgt
      have : fixedNeed cs (buffer.getD []).length =
          USIZE_MOD - ((buffer.getD []).length - cs) := by
        unfold fixedNeed
        rw [if_neg (by omega)]
      rw [this] at h1
      unfold USIZE_MOD at h1
      omega
    have hneed : fixedNeed cs (buffer.getD []).length =
        cs - (buffer.getD []).length := by
      unfold fixedNeed
      rw [if_pos hle]
    by_cases h2 : fixedNeed cs (buffer.getD []).length = data.length
    · rw [if_pos h2] at hc
      rw [List.mem_singleton] at hc
      subst hc
      rw [List.length_append]
      omega
    · rw [if_neg h2] at hc
      rw [List.mem_singleton] at hc
      subst hc
      rw [List.length_append, List.length_take]
      omega

theorem dropLast_append_left {α : Type} (l1 l2 : List α) (h : l2 ≠ []) :
    (l1 ++ l2).dropLast = l1 ++ l2.dropLast :=
  List.dropLast_append_of_ne_nil l1 h

/-- Every chunk `FixedChunkStream` emits before the final one has
exactly `chunk_size` bytes, provided the buffered and yielded byte
counts stay below `2^63` (as `Vec` lengths on a real machine do). -/
theorem fixedRun_sizes (cs : Nat) :
    ∀ (input : List (List Nat)) (buffer : Option (List Nat)),
      (buffer.getD []).length + (input.map List.length).sum < 2 ^ 63 →
      ∀ c ∈ (fixedRun cs buffer input).dropLast, c.length = cs := by
  intro input
  induction input with
  | nil =>
    intro buffer _ c hc
    cases buffer <;> simp [fixedRun] at hc
  | cons item rest ih =>
    intro buffer hbound c hc
    rw [List.map_cons, List.sum_cons] at hbound
    have hb : (buffer.getD []).length < 2 ^ 63 := by omega
    have hd : item.length < 2 ^ 63 := by omega
    have hbound2 : (((fixedStep cs buffer item).2.getD []).length +
        (rest.map List.length).sum) < 2 ^ 63 := by
      have hflat := fixedStep_flatten cs buffer item
      have hlen : ((fixedStep cs buffer item).1.flatten).length +
          ((fixedStep cs buffer item).2.getD []).length =
          (buffer.getD []).length + item.length := by
        rw [← List.length_append, hflat, List.length_append]
      omega
    unfold fixedRun at hc
    rcases hrec : fixedRun cs (fixedStep cs buffer item).2 rest with _ | ⟨r0, rrest⟩
    · rw [hrec, List.append_nil] at hc
      have h1 := fixedStep_sizes cs buffer item hb hd
      exact h1 c (List.dropLast_subset _ hc)
    · rw [hrec] at hc
      rw [dropLast_append_left _ _ (by simp)] at hc
      rcases List.mem_append.mp hc with hc | hc
      · exact fixedStep_sizes cs buffer item hb hd c hc
      · rw [← hrec] at hc
        exact ih (fixedStep cs buffer item).2 hbound2 c hc

end Streams

/-- Counterexample to C9 as stated: `FixedChunkStream` can emit an empty
chunk.  When the inner stream yields one empty buffer and ends, the poll
creates an empty accumulation buffer (`get_or_insert_with`), and the
end-of-input arm returns that buffer as a chunk — so the claim "no
emitted chunk is empty" fails. -/
theorem c9_counterexample_fixed_empty_chunk :
    Streams.fixedRun 4096 none [[]] = [[]] ∧
    ([] : List Nat) ∈ Streams.fixedRun 4096 none [[]] := by
  constructor
  · rfl
  · rw [show Streams.fixedRun 4096 none [[]] = [[]] from rfl]
    exact List.mem_singleton.mpr rfl

/-- Claim C9 (amended): both chunk streams preserve the concatenated
content of the input; `ChunkStream` (under the chunker contract that a
reported boundary never exceeds the scanned data) never emits an empty
chunk; and every chunk `FixedChunkStream` emits except possibly the
last has exactly `chunk_size` bytes (for machine-realizable buffer
sizes).  `FixedChunkStream`'s final chunk, however, may be empty. -/
theorem c9_chunk_streams_content (cs : Nat) (input : List (List Nat))
    {σ : Type} (scan : σ → List Nat → Nat × σ) (st : σ)
    (hscan : ∀ s d, (scan s d).1 ≤ d.length)
    (hsize : (input.map List.length).sum < 2 ^ 63) :
    (∃ out, Streams.chunkStreamRun scan st [] input = some out ∧
      out.flatten = input.flatten ∧ ∀ c ∈ out, c ≠ []) ∧
    (Streams.fixedRun cs none input).flatten = input.flatten ∧
    (∀ c ∈ (Streams.fixedRun cs none input).dropLast, c.length = cs) := by
  refine ⟨?_, ?_, ?_⟩
  · obtain ⟨out, hrun, hflat, hne⟩ :=
      Streams.chunkStreamRun_spec scan hscan input st []
    exact ⟨out, hrun, by rw [hflat]; rfl, hne⟩
  · rw [Streams.fixedRun_flatten]
    rfl
  · exact Streams.fixedRun_sizes cs input none (by simpa using hsize)

/-- Witness for C9 (amended): a stateless chunker that always reports
the whole buffer as one chunk, on input `[[1, 2], [3]]` with
`chunk_size = 2`. -/
theorem c9_chunk_streams_content_witness :
    ((∀ (s : Unit) (d : List Nat),
        ((fun (_ : Unit) (d : List Nat) => (d.length, ())) s d).1 ≤ d.length) ∧
      (([[1, 2], [3]] : List (List Nat)).map List.length).sum < 2 ^ 63) ∧
    ((∃ out, Streams.chunkStreamRun
        (fun (_ : Unit) (d : List Nat) => (d.length, ())) () [] [[1, 2], [3]] =
          some out ∧
        out.flatten = ([[1, 2], [3]] : List (List Nat)).flatten ∧
        ∀ c ∈ out, c ≠ []) ∧
      (Streams.fixedRun 2 none [[1, 2], [3]]).flatten =
        ([[1, 2], [3]] : List (List Nat)).flatten ∧
      (∀ c ∈ (Streams.fixedRun 2 none [[1, 2], [3]]).dropLast,
        c.length = 2)) :=
  ⟨⟨fun _ d => le_refl d.length, by decide⟩,
   c9_chunk_streams_content 2 [[1, 2], [3]]
     (fun (_ : Unit) (d : List Nat) => (d.length, ())) ()
     (fun _ d => le_refl d.length) (by decide)⟩
